import Mathlib

/-!
Verification development for the navernews-tabsearch ingestion core.

The definitions below are a shallow embedding of the Python sources:
  * `core/query_parser.py`   (parse_tab_query, build_fetch_key)
  * `core/database.py`       (DatabaseManager: connection pool, fingerprint,
                              upsert_news)
  * `core/worker_registry.py` (WorkerRegistry)
  * `core/workers.py`        (ApiWorker.run retry loop)
  * `ui/main_window.py`      (fetch_news pagination / dedupe window,
                              on_fetch_done / on_fetch_error stale guard,
                              sequential refresh orchestrator)

Machine reals used only as timestamps are modelled as `Int` seconds; the
MD5 digest and the RFC-2822 date parser are abstracted as function
parameters (`md5 : String → String`, `parseTs : String → Int`) since no
verified property depends on their concrete values.
-/

/-! ### Python string helpers (str.split / str.strip / str.lower / regex \s) -/

/-- Python whitespace class `\s` restricted to ASCII: space (32), TAB (9),
LF (10), VT (11), FF (12), CR (13). -/
def isPyWs (c : Char) : Bool :=
  c.toNat == 32 || (decide (9 ≤ c.toNat) && decide (c.toNat ≤ 13))

/-- Helper for Python `str.split()` (split on whitespace runs, drop empties). -/
def splitWsAux : List Char → List Char → List (List Char)
  | [], acc => if acc.isEmpty then [] else [acc.reverse]
  | c :: rest, acc =>
    if isPyWs c then
      if acc.isEmpty then splitWsAux rest [] else acc.reverse :: splitWsAux rest []
    else splitWsAux rest (c :: acc)

/-- Python `raw.split()`. -/
def pySplit (s : String) : List String :=
  (splitWsAux s.data []).map (fun l => ⟨l⟩)

/-- Python `s.strip()` on the underlying character list. -/
def pyStripList (l : List Char) : List Char :=
  ((l.dropWhile isPyWs).reverse.dropWhile isPyWs).reverse

/-- Python `s.strip()`. -/
def pyStrip (s : String) : String := ⟨pyStripList s.data⟩

/-- Python `s.lower()` (ASCII case mapping, as `Char.toLower`). -/
def pyLower (s : String) : String := ⟨s.data.map Char.toLower⟩

/-! ### core/query_parser.py -/

/-- Token starts with the exclusion marker, Python `token.startswith("-")`. -/
def startsWithDash (l : List Char) : Bool :=
  match l with
  | [] => false
  | c :: _ => c = '-'

/-- Loop body of `parse_tab_query`: first non-marker token becomes the search
term, marker tokens (with the marker stripped, bare markers dropped) become
exclusion terms. -/
def parseLoop : List String → String → List String → String × List String
  | [], kw, ex => (kw, ex)
  | t :: rest, kw, ex =>
    if startsWithDash t.data then
      if 1 < t.length then parseLoop rest kw (ex ++ [t.drop 1])
      else parseLoop rest kw ex
    else
      if kw = "" then parseLoop rest t ex
      else parseLoop rest kw ex

/-- `core/query_parser.py::parse_tab_query`. -/
def parse_tab_query (raw : String) : String × List String :=
  let parts := pySplit raw
  if parts.isEmpty then ("", [])
  else parseLoop parts "" []

/-- `core/query_parser.py::has_positive_keyword`. -/
def has_positive_keyword (raw : String) : Bool :=
  (parse_tab_query raw).1 ≠ ""

/-- Lexicographic code-point comparison used by Python `sorted` on strings. -/
def charListLe : List Char → List Char → Bool
  | [], _ => true
  | _ :: _, [] => false
  | c :: cs, d :: ds =>
    if c.toNat < d.toNat then true
    else if d.toNat < c.toNat then false
    else charListLe cs ds

/-- String comparison by code points. -/
def strLe (a b : String) : Bool := charListLe a.data b.data

/-- Insertion step of a canonical string sort (Python `sorted` on a set). -/
def insertSorted (x : String) : List String → List String
  | [] => [x]
  | y :: ys => if strLe x y then x :: y :: ys else y :: insertSorted x ys

/-- Canonical string sort (Python `sorted`). -/
def sortStrings : List String → List String
  | [] => []
  | x :: xs => insertSorted x (sortStrings xs)

/-- The normalized exclusion set of `build_fetch_key`:
`sorted({word.strip().lower() for word in exclude_words if word.strip()})`. -/
def normalizedExcludes (exclude_words : List String) : List String :=
  sortStrings
    (((exclude_words.filter (fun w => pyStrip w ≠ "")).map
        (fun w => pyLower (pyStrip w))).dedup)

/-- Python `"|".join(parts)`. -/
def joinPipe : List String → String
  | [] => ""
  | [x] => x
  | x :: y :: t => x ++ "|" ++ joinPipe (y :: t)

/-- `core/query_parser.py::build_fetch_key`. -/
def build_fetch_key (search_keyword : String) (exclude_words : List String) : String :=
  let normalizedKeyword := pyLower (pyStrip search_keyword)
  normalizedKeyword ++ "|" ++ joinPipe (normalizedExcludes exclude_words)

/-! ### core/database.py : title fingerprint -/

/-- `DatabaseManager._calculate_title_hash`: lowercase, delete every
whitespace character (`RE_WHITESPACE.sub('', ...)`), hash. The digest `md5`
is an abstract parameter. -/
def calculate_title_hash (md5 : String → String) (title : String) : String :=
  md5 ⟨(title.data.map Char.toLower).filter (fun c => !isPyWs c)⟩

/-! ### core/worker_registry.py -/

/-- `core/worker_registry.py::WorkerHandle` (the opaque `worker` and
`thread` objects are modelled by numeric identities). -/
structure WorkerHandle where
  request_id : Nat
  tab_keyword : String
  search_keyword : String
  exclude_words : List String
  worker : Nat
  thread : Nat

/-- `core/worker_registry.py::WorkerRegistry` state: the two dicts. -/
structure WorkerRegistry where
  handlesByRequestId : Nat → Option WorkerHandle
  activeRequestIdByTabKeyword : String → Option Nat

/-- `WorkerRegistry.register`. -/
def WorkerRegistry.register (r : WorkerRegistry) (h : WorkerHandle) : WorkerRegistry where
  handlesByRequestId := fun rid =>
    if rid = h.request_id then some h else r.handlesByRequestId rid
  activeRequestIdByTabKeyword := fun t =>
    if t = h.tab_keyword then some h.request_id else r.activeRequestIdByTabKeyword t

/-- `WorkerRegistry.get_by_request_id`. -/
def WorkerRegistry.get_by_request_id (r : WorkerRegistry) (rid : Nat) : Option WorkerHandle :=
  r.handlesByRequestId rid

/-- `WorkerRegistry.get_active_request_id`. -/
def WorkerRegistry.get_active_request_id (r : WorkerRegistry) (t : String) : Option Nat :=
  r.activeRequestIdByTabKeyword t

/-- `WorkerRegistry.is_active`. -/
def WorkerRegistry.is_active (r : WorkerRegistry) (t : String) (rid : Nat) : Bool :=
  decide (r.activeRequestIdByTabKeyword t = some rid)

/-- `WorkerRegistry.pop_by_request_id`: drop the handle and clear the tab's
active id only when it equals the popped request id. -/
def WorkerRegistry.pop_by_request_id (r : WorkerRegistry) (rid : Nat) :
    Option WorkerHandle × WorkerRegistry :=
  match r.handlesByRequestId rid with
  | none => (none, r)
  | some h =>
    let r1 : WorkerRegistry :=
      { r with handlesByRequestId := fun x => if x = rid then none else r.handlesByRequestId x }
    if r1.activeRequestIdByTabKeyword h.tab_keyword = some rid then
      (some h,
        { r1 with activeRequestIdByTabKeyword := fun t =>
            if t = h.tab_keyword then none else r1.activeRequestIdByTabKeyword t })
    else (some h, r1)

/-- `WorkerRegistry.clear_active_if_matches`. -/
def WorkerRegistry.clear_active_if_matches (r : WorkerRegistry) (t : String) (rid : Nat) :
    WorkerRegistry :=
  if r.activeRequestIdByTabKeyword t = some rid then
    { r with activeRequestIdByTabKeyword := fun x =>
        if x = t then none else r.activeRequestIdByTabKeyword x }
  else r

/-! ### core/database.py : connection pool (get_connection / return_connection) -/

/-- Pool state of `DatabaseManager`: the bounded connection queue, the
closed flag, the set of emergency connection ids, the active-connection
counter, and a supply of fresh ids for fabricated connections. -/
structure PoolState where
  pool : List Nat
  maxConnections : Nat
  closed : Bool
  emergency : List Nat
  active : Nat
  nextConnId : Nat
deriving DecidableEq, Repr

/-- Result of `DatabaseManager.get_connection`: a connection plus the new
state, or the `RuntimeError` raised once the manager is closed. -/
inductive AcquireResult
  | ok (connId : Nat) (s : PoolState)
  | closedError
deriving DecidableEq, Repr

/-- `DatabaseManager.get_connection`: fail fast when closed; otherwise take
a pooled connection, and on exhaustion (the queue `get` timed out) fabricate
an emergency connection that bypasses the pool. -/
def get_connection (s : PoolState) : AcquireResult :=
  if s.closed then .closedError
  else
    match s.pool with
    | c :: rest => .ok c { s with pool := rest, active := s.active + 1 }
    | [] =>
      .ok s.nextConnId
        { s with emergency := s.nextConnId :: s.emergency, nextConnId := s.nextConnId + 1 }

/-- `DatabaseManager.return_connection`; the `Bool` records whether the
connection was closed rather than recycled. Emergency connections are always
closed, a closed manager closes, a full pool closes, otherwise the
connection is put back. `max(0, active - 1)` is `Nat` subtraction. -/
def return_connection (s : PoolState) (conn : Nat) : PoolState × Bool :=
  if s.emergency.contains conn then
    ({ s with emergency := s.emergency.erase conn }, true)
  else if s.closed then (s, true)
  else
    let s1 := { s with active := s.active - 1 }
    if s1.pool.length = s1.maxConnections then (s1, true)
    else ({ s1 with pool := s1.pool ++ [conn] }, false)

/-! ### core/database.py : schema rows and upsert_news -/

/-- A raw API item handed to `upsert_news` (after worker-side parsing). -/
structure NewsItem where
  link : String
  title : String
  description : String
  pubDate : String
  publisher : String
deriving DecidableEq, Repr

/-- A row of the `news` table. -/
structure NewsRow where
  link : String
  keyword : String
  title : String
  description : String
  pubDate : String
  publisher : String
  pubDateTs : Int
  titleHash : String
  isRead : Bool
  isBookmarked : Bool
  notes : String
deriving DecidableEq, Repr

/-- A row of the `news_keywords` table (composite key `(link, keyword)`). -/
structure KwRow where
  link : String
  keyword : String
  isDuplicate : Bool
deriving DecidableEq, Repr

/-- The persisted store: both tables. -/
structure Db where
  news : List NewsRow
  newsKeywords : List KwRow
deriving DecidableEq, Repr

/-- The existence check of `upsert_news`: the SQL
`SELECT n.title_hash FROM news n JOIN news_keywords nk ON nk.link = n.link
WHERE nk.keyword = ? AND n.title_hash IN (...)` restricted to one hash. -/
def hashExistsForKeyword (db : Db) (kw : String) (h : String) : Bool :=
  db.news.any (fun n =>
    n.titleHash = h &&
      db.newsKeywords.any (fun nk => nk.link = n.link && nk.keyword = kw))

/-- Item preparation loop of `upsert_news` (fingerprint and timestamp). -/
def prepareItem (md5 : String → String) (parseTs : String → Int) (kw : String)
    (it : NewsItem) : NewsRow where
  link := it.link
  keyword := kw
  title := it.title
  description := it.description
  pubDate := it.pubDate
  publisher := it.publisher
  pubDateTs := parseTs it.pubDate
  titleHash := calculate_title_hash md5 it.title
  isRead := false
  isBookmarked := false
  notes := ""

/-- Classification loop of `upsert_news`: `seen_hashes` starts from the
committed hashes and grows over the in-flight batch; each item is flagged
duplicate when its hash is already in `seen_hashes`. -/
def classifyItems (seen : List String) : List NewsRow → List (NewsRow × Bool)
  | [] => []
  | r :: rest =>
    (r, seen.contains r.titleHash) :: classifyItems (r.titleHash :: seen) rest

/-- The `ON CONFLICT(link) DO UPDATE` clause of the `news` insert. -/
def applyNewsUpdate (old new : NewsRow) : NewsRow :=
  { old with
      keyword := if old.keyword = "" then new.keyword else old.keyword
      title := new.title
      description := new.description
      pubDate := new.pubDate
      publisher := new.publisher
      pubDateTs := if 0 < new.pubDateTs then new.pubDateTs else old.pubDateTs
      titleHash := new.titleHash }

/-- One tuple of the `news` executemany (insert or conflict-update by link). -/
def insertNewsOnConflict (rows : List NewsRow) (r : NewsRow) : List NewsRow :=
  if rows.any (fun n => n.link = r.link) then
    rows.map (fun n => if n.link = r.link then applyNewsUpdate n r else n)
  else rows ++ [r]

/-- One tuple of the `news_keywords` executemany
(`ON CONFLICT(link, keyword) DO UPDATE SET is_duplicate = excluded`). -/
def insertKwOnConflict (rows : List KwRow) (r : KwRow) : List KwRow :=
  if rows.any (fun nk => nk.link = r.link && nk.keyword = r.keyword) then
    rows.map (fun nk =>
      if nk.link = r.link && nk.keyword = r.keyword then
        { nk with isDuplicate := r.isDuplicate }
      else nk)
  else rows ++ [r]

/-- The classification flags `upsert_news` computes for a batch, in batch
order (the `is_dup` sequence of the source loop). -/
def upsertClassification (md5 : String → String) (parseTs : String → Int)
    (db : Db) (items : List NewsItem) (kw : String) : List (NewsRow × Bool) :=
  let prepared := items.map (prepareItem md5 parseTs kw)
  let existing := (prepared.map (fun r => r.titleHash)).filter
    (fun h => hashExistsForKeyword db kw h)
  classifyItems existing prepared

/-- `DatabaseManager.upsert_news`: returns the updated store together with
`(added_count, duplicate_count)`. -/
def upsert_news (md5 : String → String) (parseTs : String → Int)
    (db : Db) (items : List NewsItem) (kw : String) : Db × Nat × Nat :=
  if items.isEmpty then (db, 0, 0)
  else
    let classified := upsertClassification md5 parseTs db items kw
    let addedCount := (classified.filter (fun p => p.2 = false)).length
    let dupCount := (classified.filter (fun p => p.2 = true)).length
    let news1 := classified.foldl (fun rows p => insertNewsOnConflict rows p.1) db.news
    let nk1 := classified.foldl
      (fun rows p => insertKwOnConflict rows ⟨p.1.link, kw, p.2⟩) db.newsKeywords
    (⟨news1, nk1⟩, addedCount, dupCount)

/-! ### core/workers.py : ApiWorker.run retry loop

The HTTP layer is abstracted by `resp : Nat → ApiResp` giving the response
of each attempt. The cooperative cancellation flag is modelled by a poll
counter: poll number `pc` observes the flag set exactly when
`cancelAt = some k` with `k ≤ pc` (the flag is monotone). Progress signals
are not modelled; the completion/error emissions go through `_safe_emit`,
which re-polls the flag before emitting. -/

/-- Outcome of one HTTP attempt: `rateLimited` is status 429, `ok` is 200,
`httpError` is any other status code, plus the two transient exceptions. -/
inductive ApiResp
  | rateLimited
  | httpError (code : Nat)
  | ok (itemCount : Nat)
  | timeout
  | netError
deriving DecidableEq, Repr

/-- Observable events of one `ApiWorker.run`. -/
inductive WEvent
  | cancelPoll (pc : Nat)
  | attemptStart (i : Nat)
  | sleepSec
  | shortDelay
  | emitError
  | emitFinished
deriving DecidableEq, Repr

/-- Whether the cancellation flag is observed set at poll number `pc`. -/
def isCancelled (cancelAt : Option Nat) (pc : Nat) : Bool :=
  match cancelAt with
  | none => false
  | some k => decide (k ≤ pc)

/-- `_safe_emit`: poll the flag, emit only when still running. -/
def safeEmit (cancelAt : Option Nat) (pc : Nat) (e : WEvent) : List WEvent :=
  if isCancelled cancelAt pc then [.cancelPoll pc] else [.cancelPoll pc, e]

/-- The 429 backoff wait `for _ in range(wait_time): if not running: return;
sleep(1)` — one flag poll before every second of sleep. Returns the events,
the next poll number, and whether the wait was aborted by cancellation. -/
def waitBackoff (cancelAt : Option Nat) : Nat → Nat → List WEvent × Nat × Bool
  | 0, pc => ([], pc, false)
  | w + 1, pc =>
    if isCancelled cancelAt pc then ([.cancelPoll pc], pc + 1, true)
    else
      let rest := waitBackoff cancelAt w (pc + 1)
      (.cancelPoll pc :: .sleepSec :: rest.1, rest.2.1, rest.2.2)

/-- The retry loop of `ApiWorker.run`, from attempt `i` with `fuel`
remaining loop iterations (`fuel = N - i` at every call site). Branches in
source order: top-of-loop flag check, then 429 (backoff and retry when not
the final attempt, else emit error), other non-200 status (emit error, no
retry), 200 (persist and emit the single completion), timeout/network error
(fixed one-second delay and retry when not the final attempt, else emit
error). -/
def runAttempts (resp : Nat → ApiResp) (cancelAt : Option Nat) (N : Nat) :
    Nat → Nat → Nat → List WEvent
  | 0, _, _ => []
  | fuel + 1, i, pc =>
    if isCancelled cancelAt pc then [.cancelPoll pc]
    else
      .cancelPoll pc :: .attemptStart i ::
        (match resp i with
          | .rateLimited =>
            if i < N - 1 then
              let w := waitBackoff cancelAt ((i + 1) * 2) (pc + 1)
              if w.2.2 then w.1
              else w.1 ++ runAttempts resp cancelAt N fuel (i + 1) w.2.1
            else safeEmit cancelAt (pc + 1) .emitError
          | .httpError _ => safeEmit cancelAt (pc + 1) .emitError
          | .ok _ => safeEmit cancelAt (pc + 1) .emitFinished
          | .timeout =>
            if i < N - 1 then .shortDelay :: runAttempts resp cancelAt N fuel (i + 1) (pc + 1)
            else safeEmit cancelAt (pc + 1) .emitError
          | .netError =>
            if i < N - 1 then .shortDelay :: runAttempts resp cancelAt N fuel (i + 1) (pc + 1)
            else safeEmit cancelAt (pc + 1) .emitError)

/-- `ApiWorker.run`: the initial `if not self.is_running: return` poll, then
the bounded retry loop over `max_retries` attempts. -/
def apiWorkerRun (resp : Nat → ApiResp) (cancelAt : Option Nat) (N : Nat) : List WEvent :=
  if isCancelled cancelAt 0 then [.cancelPoll 0]
  else .cancelPoll 0 :: runAttempts resp cancelAt N N 0 1

/-- Number of `attemptStart` events in a trace. -/
def countAttempts (tr : List WEvent) : Nat :=
  (tr.filter (fun e => match e with | .attemptStart _ => true | _ => false)).length

/-- Number of completion/error emissions in a trace. -/
def countEmits (tr : List WEvent) : Nat :=
  (tr.filter (fun e => match e with
    | .emitError => true
    | .emitFinished => true
    | _ => false)).length

/-- The uncancelled backoff trace: `w` one-second sleeps, each preceded by a
poll of the cancellation flag. -/
def backoffTrace : Nat → Nat → List WEvent
  | 0, _ => []
  | w + 1, pc => .cancelPoll pc :: .sleepSec :: backoffTrace w (pc + 1)

/-! ### ui/main_window.py : per-tab fetch state, orchestrator, callbacks -/

/-- `TabFetchState.last_api_start_index` (default 0), per tab keyword. -/
def TabFetchStateMap := String → Nat

/-- Sequential-refresh fields of `MainWindow` (`_sequential_refresh_active`,
`_pending_refresh_keywords`, `_current_refresh_idx`, `_total_refresh_count`,
`_sequential_added_count`, `_sequential_dup_count`). -/
structure SeqState where
  active : Bool
  pending : List String
  idx : Nat
  total : Nat
  addedTot : Nat
  dupTot : Nat
deriving DecidableEq, Repr

/-- Events observable from one sequential refresh cycle. -/
inductive CycleEvent
  | dispatch (kw : String)
  | aggregate (added dup : Nat)
deriving DecidableEq, Repr

/-- `MainWindow._finish_sequential_refresh`: leave the Active state and emit
the single aggregate summary built from the accumulated counters. -/
def finishSequentialRefresh (s : SeqState) : SeqState × List CycleEvent :=
  ({ s with active := false, pending := [] }, [.aggregate s.addedTot s.dupTot])

/-- `MainWindow._on_sequential_fetch_done`: guarded index advance; the
returned flag records that the next `_process_next_refresh` was scheduled. -/
def onSequentialFetchDone (s : SeqState) : SeqState × Bool :=
  if s.active = false then (s, false)
  else ({ s with idx := s.idx + 1 }, true)

/-- Outcome of one sequential step: the dispatched worker finished
(`success`), its error signal fired (`failure`), or `fetch_news` itself
raised during dispatch (`dispatchError`). -/
inductive StepOutcome
  | success (added dup : Nat)
  | failure
  | dispatchError
deriving DecidableEq, Repr

/-- One round of the sequential chain: `_process_next_refresh` followed by
the worker callback for the dispatched step. Source order: inactive guard,
end-of-list completion, dispatch `fetch_news(kw, is_sequential=True)` with
the dispatch-exception handler advancing the index, then the sequential
branches of `on_fetch_done` (counter accumulation) or `on_fetch_error`,
both ending in `_on_sequential_fetch_done`. The `Bool` records whether the
chain scheduled another round. -/
def seqRound (outcome : StepOutcome) (s : SeqState) : SeqState × List CycleEvent × Bool :=
  if s.active = false then (s, [], false)
  else if s.pending.length ≤ s.idx then
    let f := finishSequentialRefresh s
    (f.1, f.2, false)
  else
    let kw := s.pending.getD s.idx ""
    match outcome with
    | .dispatchError => ({ s with idx := s.idx + 1 }, [.dispatch kw], true)
    | .success added dup =>
      let s1 := { s with addedTot := s.addedTot + added, dupTot := s.dupTot + dup }
      let r := onSequentialFetchDone s1
      (r.1, [.dispatch kw], r.2)
    | .failure =>
      let r := onSequentialFetchDone s
      (r.1, [.dispatch kw], r.2)

/-- The whole sequential chain: rounds repeat while a next round is
scheduled; `fuel` bounds the recursion (`pending.length - idx + 1` rounds
suffice since every round advances the index or finishes). -/
def runCycle (outcomes : Nat → StepOutcome) : Nat → SeqState → SeqState × List CycleEvent
  | 0, s => (s, [])
  | fuel + 1, s =>
    let r := seqRound (outcomes s.idx) s
    if r.2.2 then
      let rest := runCycle outcomes fuel r.1
      (rest.1, r.2.1 ++ rest.2)
    else (r.1, r.2.1)

/-- The Active state entered by `refresh_all` over the snapshot of eligible
tab keywords: index 0, zeroed counters. -/
def startCycleState (kws : List String) : SeqState where
  active := true
  pending := kws
  idx := 0
  total := kws.length
  addedTot := 0
  dupTot := 0

/-- Added-count accumulated by the successful outcomes of steps
`i, i+1, ..., i+n-1`. -/
def accAdded (outcomes : Nat → StepOutcome) : Nat → Nat → Nat
  | _, 0 => 0
  | i, n + 1 =>
    (match outcomes i with | .success a _ => a | _ => 0) + accAdded outcomes (i + 1) n

/-- Duplicate-count accumulated by the successful outcomes of steps
`i, i+1, ..., i+n-1`. -/
def accDup (outcomes : Nat → StepOutcome) : Nat → Nat → Nat
  | _, 0 => 0
  | i, n + 1 =>
    (match outcomes i with | .success _ d => d | _ => 0) + accDup outcomes (i + 1) n

/-- Fields of `MainWindow` shared by `fetch_news` and its two worker
callbacks. Dicts are modelled as total/optional maps; `tabFetchState`
collapses `setdefault(keyword, TabFetchState())` since a missing entry and
the default `last_api_start_index = 0` are indistinguishable to readers. -/
structure MWState where
  registry : WorkerRegistry
  tabFetchState : TabFetchStateMap
  requestStartIndex : Nat → Option Nat
  lastFetchRequestTs : String → Option Int
  seq : SeqState
  networkErrorCount : Nat
  networkAvailable : Bool

/-- `MainWindow._fetch_dedupe_window_sec` (10.0 seconds). -/
def fetchDedupeWindowSec : Int := 10

/-- `MainWindow._is_active_worker_request`. -/
def isActiveWorkerRequest (s : MWState) (keyword : String) (rid : Option Nat) : Bool :=
  match rid with
  | none => true
  | some r => s.registry.is_active keyword r

/-- The start-index computation of the `is_more` block of `fetch_news`:
`last_api_start_index + 100` when an index is recorded, otherwise
`1 + (saved_count // 100) * 100` floored to 101. -/
def loadMoreStart (lastIdx : Nat) (dbCount : Int) : Nat :=
  if 0 < lastIdx then lastIdx + 100
  else
    let savedCount := (max 0 dbCount).toNat
    let s0 := 1 + savedCount / 100 * 100
    if s0 ≤ 1 then 101 else s0

/-- Decision taken by `MainWindow.fetch_news` before any worker is created. -/
inductive FetchPlan
  | noSearchTerm
  | deduped
  | apiLimitInfo
  | dispatch (start : Nat)
deriving DecidableEq, Repr

/-- The decision prefix of `MainWindow.fetch_news`: parse the tab keyword,
apply the manual-trigger dedupe window, then for "load more" continue at
`last_api_start_index + 100`, or derive the start from the stored count
(`1 + (count // 100) * 100`, floored to 101), refusing starts above the
1000 API ceiling with an informational dialog. `dbCount` stands for the
`self.db.get_counts(search_keyword)` read. Returns the plan and the state
with the dedupe-window timestamp map updated. -/
def fetch_news_plan (s : MWState) (nowTs : Int) (keyword : String)
    (isMore isSequential : Bool) (dbCount : Int) : FetchPlan × MWState :=
  let parsed := parse_tab_query keyword
  if parsed.1 = "" then (.noSearchTerm, s)
  else
    let fetchKey := build_fetch_key parsed.1 parsed.2
    if !isMore && !isSequential then
      let lastTs := (s.lastFetchRequestTs fetchKey).getD 0
      if nowTs - lastTs < fetchDedupeWindowSec then (.deduped, s)
      else
        let s1 := { s with lastFetchRequestTs := fun k =>
          if k = fetchKey then some nowTs else s.lastFetchRequestTs k }
        if isMore then planLoadMore s1 keyword dbCount else (.dispatch 1, s1)
    else if isMore then planLoadMore s keyword dbCount
    else (.dispatch 1, s)
where
  /-- The `is_more` block: choose the start index and check the ceiling. -/
  planLoadMore (s1 : MWState) (keyword : String) (dbCount : Int) : FetchPlan × MWState :=
    if 1000 < loadMoreStart (s1.tabFetchState keyword) dbCount then (.apiLimitInfo, s1)
    else (.dispatch (loadMoreStart (s1.tabFetchState keyword) dbCount), s1)

/-- Completion payload of a fetch worker (`result` dict of `on_fetch_done`;
the items list is irrelevant to the verified properties). -/
structure FetchResult where
  added : Nat
  dup : Nat
  total : Nat
  filteredCnt : Nat
deriving DecidableEq, Repr

/-- Externally visible side effects of the two worker callbacks. -/
inductive UIEffect
  | reloadTabFromDb (kw : String)
  | toastAndNotify
  | scheduleNextSequentialStep
  | errorDialog
  | updateTabBadge (kw : String)
deriving DecidableEq, Repr

/-- `MainWindow.on_fetch_done`: the stale-result guard, then (for a live
request) recording the completed start index as the tab's pagination state,
reloading the tab, either manual-mode notifications or the sequential
counter accumulation and chain advance, and the network-counter reset. -/
def on_fetch_done (s : MWState) (result : FetchResult) (keyword : String)
    (isMore isSequential : Bool) (request_id : Option Nat) : MWState × List UIEffect :=
  if !isActiveWorkerRequest s keyword request_id then (s, [])
  else
    let s1 :=
      match request_id with
      | some rid =>
        match s.requestStartIndex rid with
        | some idx => { s with tabFetchState := fun k =>
            if k = keyword then idx else s.tabFetchState k }
        | none => s
      | none => s
    if !isSequential then
      let manualEffs :=
        if !isMore then [UIEffect.reloadTabFromDb keyword, .toastAndNotify]
        else [UIEffect.reloadTabFromDb keyword]
      ({ s1 with networkErrorCount := 0, networkAvailable := true },
        manualEffs ++ [.updateTabBadge keyword])
    else
      let s2 := { s1 with seq := { s1.seq with
        addedTot := s1.seq.addedTot + result.added
        dupTot := s1.seq.dupTot + result.dup } }
      let r := onSequentialFetchDone s2.seq
      ({ s2 with seq := r.1, networkErrorCount := 0, networkAvailable := true },
        [UIEffect.reloadTabFromDb keyword] ++
          (if r.2 then [UIEffect.scheduleNextSequentialStep] else []) ++
          [.updateTabBadge keyword])

/-- `MainWindow.on_fetch_error`: the stale-result guard, then (for a live
request) dropping the dedupe-window timestamp and the recorded start index,
and either the modal error dialog or the sequential chain advance, plus the
network-error counter bookkeeping. -/
def on_fetch_error (s : MWState) (keyword : String) (isSequential : Bool)
    (request_id : Option Nat) (isNetworkError : Bool) : MWState × List UIEffect :=
  if !isActiveWorkerRequest s keyword request_id then (s, [])
  else
    let parsed := parse_tab_query keyword
    let searchKeyword := if parsed.1 = "" then keyword else parsed.1
    let fetchKey := build_fetch_key searchKeyword parsed.2
    let s1 := { s with lastFetchRequestTs := fun k =>
      if k = fetchKey then none else s.lastFetchRequestTs k }
    let s2 :=
      match request_id with
      | some rid => { s1 with requestStartIndex := fun x =>
          if x = rid then none else s1.requestStartIndex x }
      | none => s1
    let afterMode :=
      if !isSequential then (s2, [UIEffect.errorDialog])
      else
        let r := onSequentialFetchDone s2.seq
        ({ s2 with seq := r.1 },
          if r.2 then [UIEffect.scheduleNextSequentialStep] else [])
    let s3 :=
      if isNetworkError then
        { afterMode.1 with networkErrorCount := afterMode.1.networkErrorCount + 1 }
      else { afterMode.1 with networkErrorCount := 0 }
    (s3, afterMode.2)

/-! ### Concrete inputs used by witnesses and counterexamples -/

/-- Keyword used in concrete scenarios. -/
def kwAI : String := "AI"

/-- Second keyword used in concrete scenarios. -/
def kwEcon : String := "ECON"

/-- Tab keyword used in concrete scenarios. -/
def tabKw : String := "ai -spam"

/-- The item of the same-link re-ingest scenario. -/
def c1Item : NewsItem where
  link := "https://x/1"
  title := "t"
  description := "d"
  pubDate := ""
  publisher := "p"

/-- Identity stands in for the abstract digest in concrete scenarios. -/
def idHash : String → String := fun s => s

/-- Constant date parser used in concrete scenarios. -/
def zeroTs : String → Int := fun _ => 0

/-- Empty store. -/
def emptyDb : Db := ⟨[], []⟩

/-- Empty registry. -/
def regEmpty : WorkerRegistry := ⟨fun _ => none, fun _ => none⟩

/-- Search term of the concrete tab keyword. -/
def termAi : String := "ai"

/-- Exclusion word of the concrete tab keyword. -/
def exSpam : String := "spam"

/-- First concrete request handle (request id 1). -/
def handleA : WorkerHandle where
  request_id := 1
  tab_keyword := tabKw
  search_keyword := termAi
  exclude_words := [exSpam]
  worker := 0
  thread := 0

/-- Second concrete request handle for the same tab (request id 2). -/
def handleB : WorkerHandle where
  request_id := 2
  tab_keyword := tabKw
  search_keyword := termAi
  exclude_words := [exSpam]
  worker := 1
  thread := 1

/-- Concrete exhausted open pool holding emergency connection 7. -/
def poolS : PoolState where
  pool := []
  maxConnections := 2
  closed := false
  emergency := [7]
  active := 2
  nextConnId := 8

/-- The same pool after `close()`. -/
def poolClosed : PoolState := { poolS with closed := true }

/-- Concrete `MainWindow` state with no live requests. -/
def mw0 : MWState where
  registry := regEmpty
  tabFetchState := fun _ => 0
  requestStartIndex := fun _ => none
  lastFetchRequestTs := fun _ => none
  seq := { active := false, pending := [], idx := 0, total := 0, addedTot := 0, dupTot := 0 }
  networkErrorCount := 0
  networkAvailable := true

/-- Concrete completion payload. -/
def fr0 : FetchResult where
  added := 3
  dup := 1
  total := 10
  filteredCnt := 0

/-- The normalization inside `_calculate_title_hash`: lowercase the
characters, then delete the whitespace ones. -/
def normList (l : List Char) : List Char :=
  (l.map Char.toLower).filter (fun c => !isPyWs c)

/-- Two titles differ only by letter case and by the size (including full
removal) of whitespace runs: non-whitespace characters are matched up to
`Char.toLower`, whitespace characters on either side are skipped. -/
inductive TitleEquiv : List Char → List Char → Prop
  | nil : TitleEquiv [] []
  | caseCh {c d : Char} {l m : List Char} :
      isPyWs c = false → isPyWs d = false → Char.toLower c = Char.toLower d →
      TitleEquiv l m → TitleEquiv (c :: l) (d :: m)
  | wsLeft {c : Char} {l m : List Char} :
      isPyWs c = true → TitleEquiv l m → TitleEquiv (c :: l) m
  | wsRight {d : Char} {l m : List Char} :
      isPyWs d = true → TitleEquiv l m → TitleEquiv l (d :: m)

/-- First title of the concrete fingerprint scenario. -/
def titleOne : String := "Ab  C"

/-- Second title of the concrete fingerprint scenario: case flipped, the
two-space run shrunk to one space. -/
def titleTwo : String := "aB c"

/-- Character-level image of `joinPipe`. -/
def charJoin : List (List Char) → List Char
  | [] => []
  | [x] => x
  | x :: y :: t => x ++ '|' :: charJoin (y :: t)

/-- First colliding search term of the fetch-key counterexample. -/
def cxKw1 : String := "a|b"

/-- Second colliding search term of the fetch-key counterexample. -/
def cxKw2 : String := "a"

/-- Exclusion word b. -/
def cxB : String := "b"

/-- Exclusion word c. -/
def cxC : String := "c"

/-- First item of the duplicate-scoping scenario. -/
def c4Item1 : NewsItem where
  link := "https://x/a"
  title := "Same Title"
  description := "d1"
  pubDate := ""
  publisher := "p1"

/-- Second item of the duplicate-scoping scenario: distinct link, the same
title. -/
def c4Item2 : NewsItem where
  link := "https://x/b"
  title := "Same Title"
  description := "d2"
  pubDate := ""
  publisher := "p2"

/-! ### C3 development : sequential refresh cycle -/

/-- Event is a dispatch. -/
def isDispatchEvent : CycleEvent → Bool
  | .dispatch _ => true
  | _ => false

/-- Event is the aggregate summary. -/
def isAggregateEvent : CycleEvent → Bool
  | .aggregate _ _ => true
  | _ => false

/-- Concrete outcome schedule: step 0 succeeds with 2 added and 1
duplicate, every later step fails. -/
def outc0 : Nat → StepOutcome := fun i => if i = 0 then .success 2 1 else .failure

/-! ### C6 development : retry loop of ApiWorker.run -/

/-- Number of one-second sleeps in a trace. -/
def countSleeps (tr : List WEvent) : Nat :=
  (tr.filter (fun e => match e with | .sleepSec => true | _ => false)).length

/-- Concrete response schedule used in the retry-policy witness: attempt 0
is rate-limited, attempt 1 fails with HTTP 401, later attempts succeed. -/
def resp0 : Nat → ApiResp := fun i =>
  if i = 0 then .rateLimited else if i = 1 then .httpError 401 else .ok 5

/-! ### Theorems and witnesses -/

/-- C1. The spec (and the repository's own test
`test_same_link_reingest_is_not_counted_as_duplicate`) requires that
submitting one item with a fixed link and title in two separate upsert
batches under the same keyword yields `(added=1, duplicate=0)` then
`(added=0, duplicate=0)` and never a duplicate classification. The code
disagrees: the second batch finds the item's own committed fingerprint
among the keyword's rows, reports `(added=0, duplicate=1)` and rewrites the
`news_keywords` association to `is_duplicate = 1`. Exactly one `news` row
per link does hold. This theorem evaluates the embedded `upsert_news` at
that failing input. -/
theorem c1_same_link_reingest_marks_duplicate :
    (upsert_news idHash zeroTs emptyDb [c1Item] kwAI).2 = (1, 0) ∧
    (upsert_news idHash zeroTs
        (upsert_news idHash zeroTs emptyDb [c1Item] kwAI).1 [c1Item] kwAI).2 = (0, 1) ∧
    ((upsert_news idHash zeroTs
        (upsert_news idHash zeroTs emptyDb [c1Item] kwAI).1 [c1Item] kwAI).1.news.filter
      (fun n => n.link = c1Item.link)).length = 1 ∧
    (upsert_news idHash zeroTs
        (upsert_news idHash zeroTs emptyDb [c1Item] kwAI).1 [c1Item] kwAI).1.newsKeywords =
      [⟨c1Item.link, kwAI, true⟩] := by
  decide

/-- Popping a request id that is not the active id of tab `t` leaves `t`'s
active entry unchanged. -/
theorem pop_preserves_other_active (r : WorkerRegistry) (rid : Nat) (t : String)
    (hne : r.activeRequestIdByTabKeyword t ≠ some rid) :
    (r.pop_by_request_id rid).2.activeRequestIdByTabKeyword t =
      r.activeRequestIdByTabKeyword t := by
  unfold WorkerRegistry.pop_by_request_id
  cases hh : r.handlesByRequestId rid with
  | none => simp
  | some h =>
    simp only
    split
    · rename_i hact
      by_cases ht : t = h.tab_keyword
      · subst ht; exact absurd hact hne
      · simp [ht]
    · rfl

/-- C10. Registry invariant: `register` makes `(tab_keyword, request_id)`
the unique active pair for that tab (every other id, in particular every
previously registered one, is inactive); `pop_by_request_id` and
`clear_active_if_matches` with a request id that is not the tab's currently
active id leave the active mapping unchanged, so tearing down a superseded
request never deactivates its successor. -/
theorem c10_registry_active_invariant :
    (∀ (r : WorkerRegistry) (h : WorkerHandle),
      (r.register h).is_active h.tab_keyword h.request_id = true ∧
      (∀ rid, rid ≠ h.request_id → (r.register h).is_active h.tab_keyword rid = false)) ∧
    (∀ (r : WorkerRegistry) (rid : Nat) (t : String),
      r.activeRequestIdByTabKeyword t ≠ some rid →
      (r.pop_by_request_id rid).2.activeRequestIdByTabKeyword t =
        r.activeRequestIdByTabKeyword t) ∧
    (∀ (r : WorkerRegistry) (rid : Nat) (t : String),
      r.activeRequestIdByTabKeyword t ≠ some rid →
      r.clear_active_if_matches t rid = r) ∧
    (∀ (r : WorkerRegistry) (hA hB : WorkerHandle),
      hA.tab_keyword = hB.tab_keyword → hA.request_id ≠ hB.request_id →
      (((r.register hA).register hB).pop_by_request_id hA.request_id).2.is_active
        hB.tab_keyword hB.request_id = true) := by
  refine ⟨fun r h => ⟨?_, fun rid hne => ?_⟩, fun r rid t hne => ?_, fun r rid t hne => ?_,
    fun r hA hB htab hne => ?_⟩
  · simp [WorkerRegistry.register, WorkerRegistry.is_active]
  · simp [WorkerRegistry.register, WorkerRegistry.is_active]
    exact fun he => absurd he.symm hne
  · exact pop_preserves_other_active r rid t hne
  · unfold WorkerRegistry.clear_active_if_matches
    simp [hne]
  · have hact : ((r.register hA).register hB).activeRequestIdByTabKeyword hB.tab_keyword
        = some hB.request_id := by
      simp [WorkerRegistry.register]
    have hneq : ((r.register hA).register hB).activeRequestIdByTabKeyword hB.tab_keyword
        ≠ some hA.request_id := by
      rw [hact]
      intro hcontra
      exact hne (Option.some.inj hcontra).symm
    have hpres := pop_preserves_other_active ((r.register hA).register hB)
      hA.request_id hB.tab_keyword hneq
    simp [WorkerRegistry.is_active, hpres, hact]

/-- C5. Connection-pool contract: while the manager is open `get_connection`
never fails — on exhaustion it fabricates an emergency connection that
bypasses the pool (the pool itself is untouched and the new connection is
tracked in the emergency set); an emergency connection handed back to
`return_connection` is closed and never put into the pool; `return_connection`
never grows the pool beyond `maxConnections`; once the manager is closed,
`get_connection` raises immediately. -/
theorem c5_pool_acquire_release_contract :
    (∀ s : PoolState, s.closed = false →
      (∃ c s2, get_connection s = .ok c s2) ∧
      (s.pool = [] →
        ∃ c s2, get_connection s = .ok c s2 ∧ s2.pool = s.pool ∧
          s2.emergency.contains c = true ∧ s2.pool.length = s.pool.length)) ∧
    (∀ (s : PoolState) (conn : Nat), s.emergency.contains conn = true →
      (return_connection s conn).2 = true ∧
      (return_connection s conn).1.pool = s.pool) ∧
    (∀ (s : PoolState) (conn : Nat), s.pool.length ≤ s.maxConnections →
      (return_connection s conn).1.pool.length ≤ s.maxConnections) ∧
    (∀ s : PoolState, s.closed = true → get_connection s = .closedError) := by
  refine ⟨fun s hopen => ⟨?_, fun hempty => ?_⟩, fun s conn hemer => ?_,
    fun s conn hle => ?_, fun s hclosed => ?_⟩
  · unfold get_connection
    rw [hopen]
    cases s.pool with
    | nil => exact ⟨_, _, rfl⟩
    | cons c rest => exact ⟨_, _, rfl⟩
  · unfold get_connection
    rw [hopen, hempty]
    exact ⟨_, _, rfl, rfl, by simp [List.contains], rfl⟩
  · unfold return_connection
    rw [hemer]
    exact ⟨rfl, rfl⟩
  · unfold return_connection
    split
    · exact hle
    · split
      · exact hle
      · simp only
        split
        · exact hle
        · rename_i hnotfull
          simp only [List.length_append, List.length_singleton]
          omega
  · unfold get_connection
    rw [hclosed]
    rfl

/-- Witness for C10 at a concrete registry: after registering ids 1 then 2
for one tab, id 2 is active, and popping the superseded id 1 keeps id 2
active. -/
theorem c10_registry_active_invariant_witness :
    (regEmpty.register handleA).is_active handleA.tab_keyword handleA.request_id = true ∧
    (((regEmpty.register handleA).register handleB).pop_by_request_id
        handleA.request_id).2.is_active handleB.tab_keyword handleB.request_id = true :=
  ⟨(c10_registry_active_invariant.1 regEmpty handleA).1,
    c10_registry_active_invariant.2.2.2 regEmpty handleA handleB rfl (by decide)⟩

/-- Witness for C5 at a concrete pool state: an exhausted open pool still
acquires, returning the emergency connection closes it without touching the
pool, and the closed manager fails fast. -/
theorem c5_pool_acquire_release_contract_witness :
    poolS.closed = false ∧
    (∃ c s2, get_connection poolS = .ok c s2) ∧
    ((return_connection poolS 7).2 = true ∧ (return_connection poolS 7).1.pool = poolS.pool) ∧
    get_connection poolClosed = .closedError :=
  ⟨rfl, (c5_pool_acquire_release_contract.1 poolS rfl).1,
    c5_pool_acquire_release_contract.2.1 poolS 7 (by decide),
    c5_pool_acquire_release_contract.2.2.2 poolClosed rfl⟩

/-- C2. Stale-result rejection: when requests A then B were dispatched for
the same tab (so B's id, not A's, is the registry's active id for the tab),
delivering A's late completion or error callback is a no-op — the state
(pagination offsets in `tabFetchState`, the sequential counters, the
fetch-dedupe timestamps) is returned unchanged and no downstream effect
(tab reload, chain advance, dialog) is produced; the stale delivery is not
routed to any error path. -/
theorem c2_stale_callback_is_noop (s : MWState) (hA hB : WorkerHandle)
    (result : FetchResult) (isMore isSequential isNetworkError : Bool)
    (htab : hA.tab_keyword = hB.tab_keyword) (hne : hA.request_id ≠ hB.request_id) :
    on_fetch_done { s with registry := (s.registry.register hA).register hB }
        result hA.tab_keyword isMore isSequential (some hA.request_id) =
      ({ s with registry := (s.registry.register hA).register hB }, []) ∧
    on_fetch_error { s with registry := (s.registry.register hA).register hB }
        hA.tab_keyword isSequential (some hA.request_id) isNetworkError =
      ({ s with registry := (s.registry.register hA).register hB }, []) := by
  have hguard : isActiveWorkerRequest { s with registry := (s.registry.register hA).register hB }
      hA.tab_keyword (some hA.request_id) = false := by
    simp only [isActiveWorkerRequest, WorkerRegistry.is_active, WorkerRegistry.register, htab,
      if_pos rfl, decide_eq_false_iff_not]
    intro hcontra
    exact hne (Option.some.inj hcontra).symm
  exact ⟨by simp [on_fetch_done, hguard], by simp [on_fetch_error, hguard]⟩

/-- Witness for C2: with ids 1 then 2 registered for the tab, delivering the
callbacks of the superseded id 1 changes nothing and produces no effects. -/
theorem c2_stale_callback_is_noop_witness :
    on_fetch_done { mw0 with registry := (mw0.registry.register handleA).register handleB }
        fr0 handleA.tab_keyword false false (some handleA.request_id) =
      ({ mw0 with registry := (mw0.registry.register handleA).register handleB }, []) ∧
    on_fetch_error { mw0 with registry := (mw0.registry.register handleA).register handleB }
        handleA.tab_keyword false (some handleA.request_id) true =
      ({ mw0 with registry := (mw0.registry.register handleA).register handleB }, []) :=
  c2_stale_callback_is_noop mw0 handleA handleB fr0 false false true rfl (by decide)

/-- Evaluation of `Char.ofNat` at a valid code point. -/
theorem toNat_ofNat_valid (n : Nat) (h : n.isValidChar) : (Char.ofNat n).toNat = n := by
  unfold Char.ofNat
  rw [dif_pos h]
  rfl

/-- ASCII lowercasing never moves a character into or out of the
whitespace class. -/
theorem isPyWs_toLower (c : Char) : isPyWs c.toLower = isPyWs c := by
  unfold Char.toLower
  simp only
  by_cases h : c.toNat ≥ 65 ∧ c.toNat ≤ 90
  · rw [if_pos h]
    have hvalid : (c.toNat + 32).isValidChar := by
      unfold Nat.isValidChar
      left
      omega
    have htn : (Char.ofNat (c.toNat + 32)).toNat = c.toNat + 32 := toNat_ofNat_valid _ hvalid
    unfold isPyWs
    rw [htn]
    have h65 := h.1
    have h90 := h.2
    have e1 : (c.toNat + 32 == 32) = false := by
      simp only [beq_eq_false_iff_ne, ne_eq]
      omega
    have e2 : (c.toNat == 32) = false := by
      simp only [beq_eq_false_iff_ne, ne_eq]
      omega
    have e3 : decide (c.toNat + 32 ≤ 13) = false := by
      simp only [decide_eq_false_iff_not]
      omega
    have e4 : decide (c.toNat ≤ 13) = false := by
      simp only [decide_eq_false_iff_not]
      omega
    rw [e1, e2, e3, e4]
    simp
  · rw [if_neg h]

/-- Case- and whitespace-run-equivalent titles normalize identically. -/
theorem normList_eq_of_titleEquiv {l m : List Char} (h : TitleEquiv l m) :
    normList l = normList m := by
  induction h with
  | nil => rfl
  | caseCh hc hd heq _ ih =>
    rename_i c d l m _
    have hcl : isPyWs c.toLower = false := by rw [isPyWs_toLower]; exact hc
    have hdl : isPyWs d.toLower = false := by rw [isPyWs_toLower]; exact hd
    simp only [normList, List.map_cons, List.filter_cons, hcl, hdl, Bool.not_false, if_pos]
    rw [heq]
    exact congrArg _ ih
  | wsLeft hc _ ih =>
    rename_i c l m _
    have hcl : isPyWs c.toLower = true := by rw [isPyWs_toLower]; exact hc
    simp only [normList, List.map_cons, List.filter_cons, hcl, Bool.not_true]
    simpa [normList] using ih
  | wsRight hd _ ih =>
    rename_i d l m _
    have hdl : isPyWs d.toLower = true := by rw [isPyWs_toLower]; exact hd
    simp only [normList, List.map_cons, List.filter_cons, hdl, Bool.not_true]
    simpa [normList] using ih

/-- C9. Fingerprint stability: `_calculate_title_hash` lowercases the title,
removes every whitespace run entirely, and hashes the result, so two titles
that differ only in letter case or in the size of whitespace runs (the
`TitleEquiv` relation) receive the same fingerprint, for any digest
function. -/
theorem c9_fingerprint_stability (md5 : String → String) (t1 t2 : String)
    (h : TitleEquiv t1.data t2.data) :
    calculate_title_hash md5 t1 = calculate_title_hash md5 t2 := by
  unfold calculate_title_hash
  exact congrArg md5 (congrArg String.mk (normList_eq_of_titleEquiv h))

/-- Witness for C9 at a concrete pair of titles. -/
theorem c9_fingerprint_stability_witness :
    TitleEquiv titleOne.data titleTwo.data ∧
    calculate_title_hash idHash titleOne = calculate_title_hash idHash titleTwo := by
  have hd : TitleEquiv titleOne.data titleTwo.data := by
    show TitleEquiv ['A', 'b', ' ', ' ', 'C'] ['a', 'B', ' ', 'c']
    exact .caseCh (by decide) (by decide) (by decide)
      (.caseCh (by decide) (by decide) (by decide)
        (.wsLeft (by decide)
          (.wsLeft (by decide)
            (.wsRight (by decide)
              (.caseCh (by decide) (by decide) (by decide) .nil)))))
  exact ⟨hd, c9_fingerprint_stability idHash titleOne titleTwo hd⟩

/-- C7. Load-more pagination: with a recorded last successful API start
index the next fetch starts at `lastOffset + 100` (page size 100); with no
recorded index (`last_api_start_index = 0`) the start is derived from the
stored-item count for the keyword, rounded down to a page boundary with
minimum page 2 (`max 101 (1 + count / 100 * 100)`, an offset `≡ 1 (mod
100)` and at least 101); a computed start above the 1000 ceiling yields the
informational `apiLimitInfo` outcome and no dispatch. -/
theorem c7_load_more_pagination (s : MWState) (nowTs : Int) (keyword : String)
    (isSequential : Bool) (dbCount : Int)
    (hterm : (parse_tab_query keyword).1 ≠ "") :
    ((0 < s.tabFetchState keyword → s.tabFetchState keyword + 100 ≤ 1000 →
        (fetch_news_plan s nowTs keyword true isSequential dbCount).1 =
          .dispatch (s.tabFetchState keyword + 100)) ∧
      (0 < s.tabFetchState keyword → 1000 < s.tabFetchState keyword + 100 →
        (fetch_news_plan s nowTs keyword true isSequential dbCount).1 = .apiLimitInfo) ∧
      (s.tabFetchState keyword = 0 →
        (max 101 (1 + (max 0 dbCount).toNat / 100 * 100) ≤ 1000 →
          (fetch_news_plan s nowTs keyword true isSequential dbCount).1 =
            .dispatch (max 101 (1 + (max 0 dbCount).toNat / 100 * 100))) ∧
        (1000 < max 101 (1 + (max 0 dbCount).toNat / 100 * 100) →
          (fetch_news_plan s nowTs keyword true isSequential dbCount).1 = .apiLimitInfo) ∧
        (max 101 (1 + (max 0 dbCount).toNat / 100 * 100) - 1) % 100 = 0 ∧
        101 ≤ max 101 (1 + (max 0 dbCount).toNat / 100 * 100))) := by
  have hplan : fetch_news_plan s nowTs keyword true isSequential dbCount =
      fetch_news_plan.planLoadMore s keyword dbCount := by
    unfold fetch_news_plan
    rw [if_neg hterm]
    simp
  have hstartpos : 0 < s.tabFetchState keyword →
      loadMoreStart (s.tabFetchState keyword) dbCount = s.tabFetchState keyword + 100 := by
    intro hpos
    unfold loadMoreStart
    rw [if_pos hpos]
  have hstartzero : loadMoreStart 0 dbCount =
      max 101 (1 + (max 0 dbCount).toNat / 100 * 100) := by
    unfold loadMoreStart
    rw [if_neg (lt_irrefl 0)]
    show (if 1 + (max 0 dbCount).toNat / 100 * 100 ≤ 1 then 101
      else 1 + (max 0 dbCount).toNat / 100 * 100) = _
    rcases Nat.eq_zero_or_pos ((max 0 dbCount).toNat / 100) with hq | hq
    · rw [hq]
      simp
    · rw [if_neg (by omega)]
      omega
  refine ⟨fun hpos hle => ?_, fun hpos hgt => ?_, fun hzero => ?_⟩
  · rw [hplan]
    unfold fetch_news_plan.planLoadMore
    rw [hstartpos hpos, if_neg (by omega)]
  · rw [hplan]
    unfold fetch_news_plan.planLoadMore
    rw [hstartpos hpos, if_pos hgt]
  · refine ⟨fun hle => ?_, fun hgt => ?_, ?_, le_max_left _ _⟩
    · rw [hplan]
      unfold fetch_news_plan.planLoadMore
      rw [hzero, hstartzero, if_neg (by omega)]
    · rw [hplan]
      unfold fetch_news_plan.planLoadMore
      rw [hzero, hstartzero, if_pos hgt]
    · rcases Nat.eq_zero_or_pos ((max 0 dbCount).toNat / 100) with hq | hq
      · rw [hq]
        simp
      · have : max 101 (1 + (max 0 dbCount).toNat / 100 * 100) =
            1 + (max 0 dbCount).toNat / 100 * 100 := by omega
        rw [this]
        omega

/-- Witness for C7: tab with no recorded offset and 250 stored rows loads
more from offset 201 (page 3, boundary 200 + 1). -/
theorem c7_load_more_pagination_witness :
    (parse_tab_query tabKw).1 ≠ "" ∧
    (fetch_news_plan mw0 0 tabKw true false 250).1 = .dispatch 201 := by
  have h := (c7_load_more_pagination mw0 0 tabKw false 250 (by decide)).2.2 rfl
  have hmax : max 101 (1 + (max 0 (250 : Int)).toNat / 100 * 100) = 201 := by decide
  refine ⟨by decide, ?_⟩
  have hres := h.1 (by rw [hmax]; omega)
  rw [hmax] at hres
  exact hres

/-- Strings with the same character data are equal. -/
theorem stringDataInj {a b : String} (h : a.data = b.data) : a = b := by
  cases a
  cases b
  exact congrArg String.mk h

/-- The data of a pipe-join is the character-level pipe-join. -/
theorem joinPipe_data : ∀ l : List String, (joinPipe l).data = charJoin (l.map String.data)
  | [] => rfl
  | [x] => rfl
  | x :: y :: t => by
    show (x ++ "|" ++ joinPipe (y :: t)).data = x.data ++ '|' :: charJoin ((y :: t).map String.data)
    rw [String.data_append, String.data_append, joinPipe_data (y :: t)]
    simp

/-- Splitting at the first separator is unambiguous when neither prefix
contains the separator. -/
theorem append_pipe_inj (a : List Char) : ∀ (b u v : List Char), '|' ∉ a → '|' ∉ b →
    a ++ '|' :: u = b ++ '|' :: v → a = b ∧ u = v := by
  induction a with
  | nil =>
    intro b u v _ hb h
    cases b with
    | nil => simpa using h
    | cons c b' =>
      exfalso
      simp only [List.nil_append, List.cons_append, List.cons.injEq] at h
      exact hb (h.1 ▸ List.mem_cons_self c b')
  | cons x a' ih =>
    intro b u v ha hb h
    cases b with
    | nil =>
      exfalso
      simp only [List.cons_append, List.nil_append, List.cons.injEq] at h
      exact ha (h.1 ▸ List.mem_cons_self x a')
    | cons c b' =>
      simp only [List.cons_append, List.cons.injEq] at h
      have hrec := ih b' u v (fun hm => ha (List.mem_cons_of_mem x hm))
        (fun hm => hb (h.1 ▸ List.mem_cons_of_mem x hm)) h.2
      exact ⟨by rw [h.1, hrec.1], hrec.2⟩

/-- A pipe-join of nonempty separator-free words determines the word list. -/
theorem charJoin_inj (xs : List (List Char)) : ∀ ys : List (List Char),
    (∀ x ∈ xs, '|' ∉ x ∧ x ≠ []) → (∀ y ∈ ys, '|' ∉ y ∧ y ≠ []) →
    charJoin xs = charJoin ys → xs = ys := by
  induction xs with
  | nil =>
    intro ys _ hys h
    cases ys with
    | nil => rfl
    | cons y ys' =>
      cases ys' with
      | nil => exact absurd h.symm (hys y (List.mem_cons_self y [])).2
      | cons z t =>
        exfalso
        have hlen := congrArg List.length h
        simp only [charJoin, List.length_append, List.length_cons, List.length_nil] at hlen
        omega
  | cons x xs' ih =>
    intro ys hxs hys h
    cases xs' with
    | nil =>
      cases ys with
      | nil => exact absurd h (hxs x (List.mem_cons_self x [])).2
      | cons y ys' =>
        cases ys' with
        | nil =>
          have hxy : x = y := h
          rw [hxy]
        | cons z t =>
          exfalso
          have hmem : '|' ∈ y ++ '|' :: charJoin (z :: t) :=
            List.mem_append_right y (List.mem_cons_self _ _)
          have h2 : x = y ++ '|' :: charJoin (z :: t) := h
          rw [← h2] at hmem
          exact (hxs x (List.mem_cons_self x [])).1 hmem
    | cons x2 xt =>
      cases ys with
      | nil =>
        exfalso
        have hlen := congrArg List.length h
        simp only [charJoin, List.length_append, List.length_cons, List.length_nil] at hlen
        omega
      | cons y ys' =>
        cases ys' with
        | nil =>
          exfalso
          have hmem : '|' ∈ x ++ '|' :: charJoin (x2 :: xt) :=
            List.mem_append_right x (List.mem_cons_self _ _)
          have h2 : x ++ '|' :: charJoin (x2 :: xt) = y := h
          rw [h2] at hmem
          exact (hys y (List.mem_cons_self y [])).1 hmem
        | cons z t =>
          have hsplit2 := append_pipe_inj x y (charJoin (x2 :: xt)) (charJoin (z :: t))
            (hxs x (List.mem_cons_self x _)).1 (hys y (List.mem_cons_self y _)).1 h
          have htail := ih (z :: t)
            (fun q hq => hxs q (List.mem_cons_of_mem x hq))
            (fun q hq => hys q (List.mem_cons_of_mem y hq)) hsplit2.2
          rw [hsplit2.1, htail]

/-- Membership in an insertion step. -/
theorem mem_insertSorted {a x : String} : ∀ l : List String,
    a ∈ insertSorted x l → a = x ∨ a ∈ l := by
  intro l
  induction l with
  | nil =>
    intro h
    simp only [insertSorted, List.mem_singleton] at h
    exact Or.inl h
  | cons y ys ih =>
    intro h
    unfold insertSorted at h
    split at h
    · rcases List.mem_cons.mp h with h1 | h2
      · exact Or.inl h1
      · exact Or.inr h2
    · rcases List.mem_cons.mp h with h1 | h2
      · exact Or.inr (h1 ▸ List.mem_cons_self y ys)
      · rcases ih h2 with h3 | h4
        · exact Or.inl h3
        · exact Or.inr (List.mem_cons_of_mem y h4)

/-- Membership is preserved by the canonical sort. -/
theorem mem_sortStrings {a : String} : ∀ l : List String, a ∈ sortStrings l → a ∈ l := by
  intro l
  induction l with
  | nil =>
    intro h
    simp only [sortStrings] at h
    exact absurd h (List.not_mem_nil a)
  | cons y ys ih =>
    intro h
    rcases mem_insertSorted (sortStrings ys) h with h1 | h2
    · exact h1 ▸ List.mem_cons_self y ys
    · exact List.mem_cons_of_mem y (ih h2)

/-- Every member of a normalized exclusion set is a nonempty string
(empty-after-strip words are filtered out before normalization). -/
theorem mem_normalizedExcludes_ne_empty {w : String} {ex : List String}
    (h : w ∈ normalizedExcludes ex) : w ≠ "" := by
  have h1 := mem_sortStrings _ h
  have h2 := List.mem_dedup.mp h1
  rcases List.mem_map.mp h2 with ⟨u, hu, hw⟩
  have hne : pyStrip u ≠ "" := by
    have := (List.mem_filter.mp hu).2
    exact of_decide_eq_true this
  intro hcontra
  apply hne
  rw [hcontra] at hw
  have hdata : (pyStrip u).data.map Char.toLower = [] := congrArg String.data hw
  have : (pyStrip u).data = [] := List.map_eq_nil_iff.mp hdata
  exact stringDataInj this

/-- Both branches of the load-more planner leave the window state unchanged
and never report a dedupe suppression. -/
theorem planLoadMore_no_dedupe (s1 : MWState) (keyword : String) (dbCount : Int) :
    (fetch_news_plan.planLoadMore s1 keyword dbCount).1 ≠ .deduped ∧
    (fetch_news_plan.planLoadMore s1 keyword dbCount).2.lastFetchRequestTs =
      s1.lastFetchRequestTs := by
  unfold fetch_news_plan.planLoadMore
  split
  · exact ⟨by simp, rfl⟩
  · exact ⟨by simp, rfl⟩

/-- C8 (amended). The fetch-dedupe signature `build_fetch_key` determines
the normalized search term and the sorted deduplicated trimmed lowercased
exclusion set, provided the normalized term and exclusion words do not
contain the `'|'` separator character (without that restriction distinct
inputs can collide, see the counterexample); and the dedupe window is not
applied to sequential-mode steps or to "load more" requests — such a fetch
is never suppressed as a duplicate and leaves the window timestamps
untouched. -/
theorem c8_fetch_key_amended :
    (∀ (k1 k2 : String) (ex1 ex2 : List String),
      '|' ∉ (pyLower (pyStrip k1)).data → '|' ∉ (pyLower (pyStrip k2)).data →
      (∀ w ∈ normalizedExcludes ex1, '|' ∉ w.data) →
      (∀ w ∈ normalizedExcludes ex2, '|' ∉ w.data) →
      build_fetch_key k1 ex1 = build_fetch_key k2 ex2 →
      pyLower (pyStrip k1) = pyLower (pyStrip k2) ∧
        normalizedExcludes ex1 = normalizedExcludes ex2) ∧
    (∀ (s : MWState) (nowTs : Int) (keyword : String) (isMore isSequential : Bool)
        (dbCount : Int), isMore = true ∨ isSequential = true →
      (fetch_news_plan s nowTs keyword isMore isSequential dbCount).1 ≠ .deduped ∧
      (fetch_news_plan s nowTs keyword isMore isSequential dbCount).2.lastFetchRequestTs =
        s.lastFetchRequestTs) := by
  constructor
  · intro k1 k2 ex1 ex2 hp1 hp2 hw1 hw2 h
    have hd := congrArg String.data h
    unfold build_fetch_key at hd
    simp only [String.data_append] at hd
    rw [joinPipe_data, joinPipe_data, List.append_assoc, List.append_assoc,
      List.singleton_append, List.singleton_append] at hd
    have hsplit := append_pipe_inj _ _ _ _ hp1 hp2 hd
    have hcond1 : ∀ x ∈ (normalizedExcludes ex1).map String.data, '|' ∉ x ∧ x ≠ [] := by
      intro x hx
      rcases List.mem_map.mp hx with ⟨w, hwmem, hwx⟩
      subst hwx
      exact ⟨hw1 w hwmem, fun hnil => mem_normalizedExcludes_ne_empty hwmem (stringDataInj hnil)⟩
    have hcond2 : ∀ x ∈ (normalizedExcludes ex2).map String.data, '|' ∉ x ∧ x ≠ [] := by
      intro x hx
      rcases List.mem_map.mp hx with ⟨w, hwmem, hwx⟩
      subst hwx
      exact ⟨hw2 w hwmem, fun hnil => mem_normalizedExcludes_ne_empty hwmem (stringDataInj hnil)⟩
    have hmap := charJoin_inj _ _ hcond1 hcond2 hsplit.2
    have hinj : Function.Injective String.data := fun a b hab => stringDataInj hab
    exact ⟨stringDataInj hsplit.1, (List.map_injective_iff.mpr hinj) hmap⟩
  · intro s nowTs keyword isMore isSequential dbCount hms
    unfold fetch_news_plan
    by_cases hterm : (parse_tab_query keyword).1 = ""
    · rw [if_pos hterm]
      exact ⟨by simp, rfl⟩
    · rw [if_neg hterm]
      cases isMore with
      | true =>
        simp only [Bool.not_true, Bool.false_and, Bool.false_eq_true, if_false, if_true]
        exact ⟨(planLoadMore_no_dedupe s keyword dbCount).1,
          (planLoadMore_no_dedupe s keyword dbCount).2⟩
      | false =>
        cases isSequential with
        | true =>
          simp only [Bool.not_true, Bool.not_false, Bool.and_false, Bool.false_eq_true,
            if_false]
          exact ⟨by simp, trivial⟩
        | false =>
          rcases hms with hcontra | hcontra <;> exact absurd hcontra (by simp)

/-- Counterexample to C8 as stated: the signatures of search term `a|b`
with exclusion set `{c}` and of search term `a` with exclusion set `{b, c}`
are the same string `a|b|c`, although both the normalized search terms and
the normalized exclusion sets differ — differing exclusion sets can collide
on the same key when a search term contains the `'|'` separator. -/
theorem c8_fetch_key_collision_counterexample :
    build_fetch_key cxKw1 [cxC] = build_fetch_key cxKw2 [cxB, cxC] ∧
    normalizedExcludes [cxC] ≠ normalizedExcludes [cxB, cxC] ∧
    pyLower (pyStrip cxKw1) ≠ pyLower (pyStrip cxKw2) := by
  decide

/-- Witness for C8 (amended) at concrete separator-free inputs: equal keys
force equal normalized terms and exclusion sets, and a load-more plan is
never suppressed by the dedupe window. -/
theorem c8_fetch_key_amended_witness :
    (pyLower (pyStrip cxKw2) = pyLower (pyStrip cxKw2) ∧
      normalizedExcludes [cxB] = normalizedExcludes [cxB]) ∧
    ((fetch_news_plan mw0 0 tabKw true false 0).1 ≠ .deduped ∧
      (fetch_news_plan mw0 0 tabKw true false 0).2.lastFetchRequestTs =
        mw0.lastFetchRequestTs) :=
  ⟨c8_fetch_key_amended.1 cxKw2 cxKw2 [cxB] [cxB] (by decide) (by decide)
      (by decide) (by decide) rfl,
    c8_fetch_key_amended.2 mw0 0 tabKw true false 0 (Or.inl rfl)⟩

/-- Containment in a filtered list, at an element of the base list, is the
predicate's value. -/
theorem contains_filter_eq {hs : List String} {p : String → Bool} {h : String}
    (hmem : h ∈ hs) : (hs.filter p).contains h = p h := by
  cases hp : p h with
  | true => exact List.elem_eq_true_of_mem (List.mem_filter.mpr ⟨hmem, hp⟩)
  | false =>
    cases hc : (hs.filter p).contains h with
    | false => rfl
    | true =>
      have hmem2 := List.mem_of_elem_eq_true hc
      have hptrue := (List.mem_filter.mp hmem2).2
      rw [hp] at hptrue
      exact absurd hptrue (by simp)

/-- The flag the classification loop assigns to position `j`: the hash is
already in the seed set, or it occurred earlier in the batch. -/
theorem classifyItems_flag (seen : List String) (rs : List NewsRow) (j : Nat) :
    ((classifyItems seen rs)[j]?).map Prod.snd =
      (rs[j]?).map (fun r => seen.contains r.titleHash ||
        ((rs.take j).map (fun x => x.titleHash)).contains r.titleHash) := by
  induction rs generalizing seen j with
  | nil => rfl
  | cons r rest ih =>
    cases j with
    | zero => simp [classifyItems]
    | succ j =>
      simp only [classifyItems, List.getElem?_cons_succ, List.take_succ_cons, List.map_cons]
      rw [ih (r.titleHash :: seen) j]
      cases hq : rest[j]? with
      | none => rfl
      | some q =>
        refine congrArg some ?_
        have hcons : ∀ z : List String, (r.titleHash :: z).contains q.titleHash =
            ((q.titleHash == r.titleHash) || z.contains q.titleHash) := fun z => rfl
        show ((r.titleHash :: seen).contains q.titleHash ||
            ((rest.take j).map (fun x => x.titleHash)).contains q.titleHash) =
          (seen.contains q.titleHash ||
            (r.titleHash :: (rest.take j).map (fun x => x.titleHash)).contains q.titleHash)
        rw [hcons, hcons]
        cases hb : q.titleHash == r.titleHash <;>
          cases hs2 : List.contains seen q.titleHash <;> simp

/-- Evaluation of `upsert_news` on a one-item batch: the item is duplicate
exactly when its fingerprint already exists among the keyword's committed
rows, and both tables receive the corresponding conflict-insert. -/
theorem upsert_single_eval (md5 : String → String) (parseTs : String → Int) (db : Db)
    (it : NewsItem) (kw : String) :
    upsert_news md5 parseTs db [it] kw =
      (⟨insertNewsOnConflict db.news (prepareItem md5 parseTs kw it),
        insertKwOnConflict db.newsKeywords
          ⟨it.link, kw, hashExistsForKeyword db kw (calculate_title_hash md5 it.title)⟩⟩,
        if hashExistsForKeyword db kw (calculate_title_hash md5 it.title) then 0 else 1,
        if hashExistsForKeyword db kw (calculate_title_hash md5 it.title) then 1 else 0) := by
  unfold upsert_news upsertClassification
  cases hex : hashExistsForKeyword db kw (calculate_title_hash md5 it.title) with
  | false =>
    simp [classifyItems, hex, prepareItem, List.filter]
  | true =>
    simp [classifyItems, hex, prepareItem, List.filter]

/-- C4. Per-keyword duplicate scoping. Part one: two items with the same
title fingerprint upserted under two different keywords (into a store whose
rows do not yet carry that fingerprint and do not collide with the first
item's link) are each classified non-duplicate — presence under one keyword
does not contaminate the other. Part two: within one upsert batch under one
keyword, the classification flag of the j-th item is set exactly when its
fingerprint already exists among the keyword's committed rows or already
appeared at an earlier position of the same in-flight batch, so the first
occurrence (counting committed rows and earlier batch items) is
non-duplicate and every later occurrence is duplicate. -/
theorem c4_per_keyword_duplicate_scoping :
    (∀ (md5 : String → String) (parseTs : String → Int) (db : Db) (i1 i2 : NewsItem)
        (kw1 kw2 : String),
      kw1 ≠ kw2 →
      calculate_title_hash md5 i1.title = calculate_title_hash md5 i2.title →
      (∀ n ∈ db.news, n.titleHash ≠ calculate_title_hash md5 i1.title) →
      (∀ n ∈ db.news, n.link ≠ i1.link) →
      (∀ nk ∈ db.newsKeywords, nk.link ≠ i1.link) →
      (upsert_news md5 parseTs db [i1] kw1).2 = (1, 0) ∧
      (upsert_news md5 parseTs (upsert_news md5 parseTs db [i1] kw1).1 [i2] kw2).2 =
        (1, 0)) ∧
    (∀ (md5 : String → String) (parseTs : String → Int) (db : Db) (items : List NewsItem)
        (kw : String) (j : Nat),
      ((upsertClassification md5 parseTs db items kw)[j]?).map Prod.snd =
        (items[j]?).map (fun it =>
          hashExistsForKeyword db kw (calculate_title_hash md5 it.title) ||
            ((items.take j).map (fun x => calculate_title_hash md5 x.title)).contains
              (calculate_title_hash md5 it.title))) := by
  constructor
  · intro md5 parseTs db i1 i2 kw1 kw2 hkw heq hfresh hlink hnk
    have hex1 : hashExistsForKeyword db kw1 (calculate_title_hash md5 i1.title) = false := by
      unfold hashExistsForKeyword
      rw [List.any_eq_false]
      intro n hn
      simp [hfresh n hn]
    have hr1link : (prepareItem md5 parseTs kw1 i1).link = i1.link := rfl
    have hins1 : insertNewsOnConflict db.news (prepareItem md5 parseTs kw1 i1) =
        db.news ++ [prepareItem md5 parseTs kw1 i1] := by
      unfold insertNewsOnConflict
      rw [if_neg]
      intro hc
      rw [List.any_eq_true] at hc
      rcases hc with ⟨n, hn, hcl⟩
      rw [hr1link] at hcl
      exact hlink n hn (of_decide_eq_true hcl)
    have hins2 : insertKwOnConflict db.newsKeywords ⟨i1.link, kw1, false⟩ =
        db.newsKeywords ++ [⟨i1.link, kw1, false⟩] := by
      unfold insertKwOnConflict
      rw [if_neg]
      intro hc
      rw [List.any_eq_true] at hc
      rcases hc with ⟨nk, hn, hcl⟩
      rw [Bool.and_eq_true] at hcl
      exact hnk nk hn (of_decide_eq_true hcl.1)
    have hdb1 : (upsert_news md5 parseTs db [i1] kw1).1 =
        ⟨db.news ++ [prepareItem md5 parseTs kw1 i1],
          db.newsKeywords ++ [⟨i1.link, kw1, false⟩]⟩ := by
      rw [upsert_single_eval, hex1]
      simp only
      rw [hins1, hins2]
    have hex2 : hashExistsForKeyword
        ⟨db.news ++ [prepareItem md5 parseTs kw1 i1],
          db.newsKeywords ++ [⟨i1.link, kw1, false⟩]⟩ kw2
        (calculate_title_hash md5 i2.title) = false := by
      unfold hashExistsForKeyword
      rw [List.any_eq_false]
      intro n hn
      rcases List.mem_append.mp hn with hold | hnew
      · have := hfresh n hold
        rw [heq] at this
        simp [this]
      · have hn1 : n = prepareItem md5 parseTs kw1 i1 := List.mem_singleton.mp hnew
        subst hn1
        intro hc
        rw [Bool.and_eq_true] at hc
        rcases List.any_eq_true.mp hc.2 with ⟨nk, hnk2, hcl⟩
        rw [Bool.and_eq_true] at hcl
        rcases List.mem_append.mp hnk2 with hkold | hknew
        · exact hnk nk hkold (hr1link ▸ of_decide_eq_true hcl.1)
        · have hk1 : nk = ⟨i1.link, kw1, false⟩ := List.mem_singleton.mp hknew
          subst hk1
          exact hkw (of_decide_eq_true hcl.2)
    constructor
    · rw [upsert_single_eval, hex1]
      simp
    · rw [hdb1, upsert_single_eval, hex2]
      simp
  · intro md5 parseTs db items kw j
    unfold upsertClassification
    rw [classifyItems_flag]
    rw [List.getElem?_map]
    cases hj : items[j]? with
    | none => rfl
    | some it =>
      refine congrArg some ?_
      have hmemit : it ∈ items := by
        rcases List.getElem?_eq_some_iff.mp hj with ⟨hlt, hget⟩
        exact hget ▸ List.getElem_mem hlt
      have hmaps : (items.map (prepareItem md5 parseTs kw)).map (fun r => r.titleHash) =
          items.map (fun x => calculate_title_hash md5 x.title) := by
        rw [List.map_map]
        rfl
      have hmemh : calculate_title_hash md5 it.title ∈
          items.map (fun x => calculate_title_hash md5 x.title) :=
        List.mem_map_of_mem _ hmemit
      have hhash : (prepareItem md5 parseTs kw it).titleHash =
          calculate_title_hash md5 it.title := rfl
      have htake : ((items.map (prepareItem md5 parseTs kw)).take j).map
          (fun x => x.titleHash) =
          (items.take j).map (fun x => calculate_title_hash md5 x.title) := by
        rw [← List.map_take, List.map_map]
        rfl
      have key :
          (((((items.map (prepareItem md5 parseTs kw)).map (fun r => r.titleHash)).filter
              (fun h => hashExistsForKeyword db kw h)).contains
              (prepareItem md5 parseTs kw it).titleHash) ||
            ((((items.map (prepareItem md5 parseTs kw)).take j).map
              (fun x => x.titleHash)).contains (prepareItem md5 parseTs kw it).titleHash)) =
          ((hashExistsForKeyword db kw (calculate_title_hash md5 it.title)) ||
            (((items.take j).map (fun x => calculate_title_hash md5 x.title)).contains
              (calculate_title_hash md5 it.title))) := by
        rw [hmaps, hhash, htake, contains_filter_eq hmemh]
      exact key

/-- Witness for C4: identical titles under two different keywords are each
non-duplicate; in one batch under one keyword, the second occurrence of a
title is flagged duplicate. -/
theorem c4_per_keyword_duplicate_scoping_witness :
    (upsert_news idHash zeroTs emptyDb [c4Item1] kwAI).2 = (1, 0) ∧
    (upsert_news idHash zeroTs (upsert_news idHash zeroTs emptyDb [c4Item1] kwAI).1
        [c4Item2] kwEcon).2 = (1, 0) ∧
    ((upsertClassification idHash zeroTs emptyDb [c4Item1, c4Item2] kwAI)[1]?).map
      Prod.snd = some true := by
  have h1 := c4_per_keyword_duplicate_scoping.1 idHash zeroTs emptyDb c4Item1 c4Item2
    kwAI kwEcon (by decide) (by decide) (by decide) (by decide) (by decide)
  have h2 := c4_per_keyword_duplicate_scoping.2 idHash zeroTs emptyDb
    [c4Item1, c4Item2] kwAI 1
  refine ⟨h1.1, h1.2, ?_⟩
  rw [h2]
  decide

/-- Big-step characterization of the sequential chain from any Active state:
with `rest` keywords remaining, the chain dispatches each of them once
(whatever its outcome), accumulates the successful counters, emits the
single aggregate event, and ends Idle. -/
theorem runCycle_active (outcomes : Nat → StepOutcome) :
    ∀ (rest : Nat) (s : SeqState), s.active = true → s.pending.length = s.idx + rest →
    runCycle outcomes (rest + 1) s =
      ({ active := false, pending := [], idx := s.idx + rest, total := s.total,
          addedTot := s.addedTot + accAdded outcomes s.idx rest,
          dupTot := s.dupTot + accDup outcomes s.idx rest },
        ((s.pending.drop s.idx).map CycleEvent.dispatch) ++
          [CycleEvent.aggregate (s.addedTot + accAdded outcomes s.idx rest)
            (s.dupTot + accDup outcomes s.idx rest)]) := by
  intro rest
  induction rest with
  | zero =>
    intro s ha hlen
    have hdrop : s.pending.drop s.idx = [] := List.drop_eq_nil_of_le (by omega)
    have hle : s.pending.length ≤ s.idx := by omega
    simp [runCycle, seqRound, ha, hle, finishSequentialRefresh, hdrop, accAdded, accDup]
  | succ rest ih =>
    intro s ha hlen
    have hlt : s.idx < s.pending.length := by omega
    have hnle : ¬ s.pending.length ≤ s.idx := by omega
    have hdrop : s.pending.drop s.idx =
        s.pending.getD s.idx "" :: s.pending.drop (s.idx + 1) := by
      rw [List.getD_eq_getElem _ _ hlt]
      exact List.drop_eq_getElem_cons hlt
    cases ho : outcomes s.idx with
    | dispatchError =>
      have hround : seqRound (outcomes s.idx) s =
          ({ s with idx := s.idx + 1 }, [CycleEvent.dispatch (s.pending.getD s.idx "")],
            true) := by
        unfold seqRound
        simp [ha, hnle, ho]
      have hstep : runCycle outcomes (rest + 1 + 1) s =
          ((runCycle outcomes (rest + 1) { s with idx := s.idx + 1 }).1,
            CycleEvent.dispatch (s.pending.getD s.idx "") ::
              (runCycle outcomes (rest + 1) { s with idx := s.idx + 1 }).2) := by
        conv_lhs => unfold runCycle
        rw [hround]
        simp
      rw [hstep, ih { s with idx := s.idx + 1 } ha
        (show s.pending.length = s.idx + 1 + rest by omega)]
      rw [hdrop]
      simp only [List.map_cons, List.cons_append, accAdded, accDup, ho, Prod.mk.injEq,
        SeqState.mk.injEq, List.cons.injEq, List.append_cancel_left_eq, and_true,
        true_and]
      refine ⟨⟨by omega, by omega, by omega⟩, ?_⟩
      congr 1 <;> omega
    | success added dup =>
      have hround : seqRound (outcomes s.idx) s =
          ({ s with
              idx := s.idx + 1
              addedTot := s.addedTot + added
              dupTot := s.dupTot + dup },
            [CycleEvent.dispatch (s.pending.getD s.idx "")], true) := by
        unfold seqRound
        simp [ha, hnle, ho, onSequentialFetchDone]
      have hstep : runCycle outcomes (rest + 1 + 1) s =
          ((runCycle outcomes (rest + 1)
              { s with
                  idx := s.idx + 1
                  addedTot := s.addedTot + added
                  dupTot := s.dupTot + dup }).1,
            CycleEvent.dispatch (s.pending.getD s.idx "") ::
              (runCycle outcomes (rest + 1)
                { s with
                    idx := s.idx + 1
                    addedTot := s.addedTot + added
                    dupTot := s.dupTot + dup }).2) := by
        conv_lhs => unfold runCycle
        rw [hround]
        simp
      rw [hstep, ih
        { s with
            idx := s.idx + 1
            addedTot := s.addedTot + added
            dupTot := s.dupTot + dup } ha
        (show s.pending.length = s.idx + 1 + rest by omega)]
      rw [hdrop]
      simp only [List.map_cons, List.cons_append, accAdded, accDup, ho, Prod.mk.injEq,
        SeqState.mk.injEq, List.cons.injEq, List.append_cancel_left_eq, and_true,
        true_and]
      refine ⟨⟨by omega, by omega, by omega⟩, ?_⟩
      congr 1 <;> omega
    | failure =>
      have hround : seqRound (outcomes s.idx) s =
          ({ s with idx := s.idx + 1 }, [CycleEvent.dispatch (s.pending.getD s.idx "")],
            true) := by
        unfold seqRound
        simp [ha, hnle, ho, onSequentialFetchDone]
      have hstep : runCycle outcomes (rest + 1 + 1) s =
          ((runCycle outcomes (rest + 1) { s with idx := s.idx + 1 }).1,
            CycleEvent.dispatch (s.pending.getD s.idx "") ::
              (runCycle outcomes (rest + 1) { s with idx := s.idx + 1 }).2) := by
        conv_lhs => unfold runCycle
        rw [hround]
        simp
      rw [hstep, ih { s with idx := s.idx + 1 } ha
        (show s.pending.length = s.idx + 1 + rest by omega)]
      rw [hdrop]
      simp only [List.map_cons, List.cons_append, accAdded, accDup, ho, Prod.mk.injEq,
        SeqState.mk.injEq, List.cons.injEq, List.append_cancel_left_eq, and_true,
        true_and]
      refine ⟨⟨by omega, by omega, by omega⟩, ?_⟩
      congr 1 <;> omega

/-- Dispatch events survive the dispatch filter. -/
theorem filter_dispatch_map (l : List String) :
    (l.map CycleEvent.dispatch).filter isDispatchEvent = l.map CycleEvent.dispatch := by
  induction l with
  | nil => rfl
  | cons a t iht => simp [isDispatchEvent, iht]

/-- Dispatch events are not aggregate events. -/
theorem filter_aggregate_map (l : List String) :
    (l.map CycleEvent.dispatch).filter isAggregateEvent = [] := by
  induction l with
  | nil => rfl
  | cons a t iht => simp [isAggregateEvent, iht]

/-- C3. Sequential cycle completeness: a cycle started over `K ≥ 1` eligible
tab keywords produces exactly the event sequence of one dispatch per
keyword — a failed step (worker error or dispatch exception) advances the
index exactly like a success and never aborts the chain — followed by
exactly one aggregate completion event carrying the counters accumulated
over the successful steps, after which the orchestrator is Idle. -/
theorem c3_sequential_cycle_completeness (kws : List String) (outcomes : Nat → StepOutcome)
    (_hne : kws ≠ []) :
    (runCycle outcomes (kws.length + 1) (startCycleState kws)).2 =
      kws.map CycleEvent.dispatch ++
        [CycleEvent.aggregate (accAdded outcomes 0 kws.length)
          (accDup outcomes 0 kws.length)] ∧
    ((runCycle outcomes (kws.length + 1) (startCycleState kws)).2.filter
      isDispatchEvent).length = kws.length ∧
    ((runCycle outcomes (kws.length + 1) (startCycleState kws)).2.filter
      isAggregateEvent).length = 1 ∧
    (runCycle outcomes (kws.length + 1) (startCycleState kws)).1.active = false := by
  have h := runCycle_active outcomes kws.length (startCycleState kws) rfl
    (by simp [startCycleState])
  have hev : (runCycle outcomes (kws.length + 1) (startCycleState kws)).2 =
      kws.map CycleEvent.dispatch ++
        [CycleEvent.aggregate (accAdded outcomes 0 kws.length)
          (accDup outcomes 0 kws.length)] := by
    rw [h]
    simp [startCycleState]
  refine ⟨hev, ?_, ?_, ?_⟩
  · rw [hev, List.filter_append, filter_dispatch_map]
    simp [isDispatchEvent]
  · rw [hev, List.filter_append, filter_aggregate_map]
    simp [isAggregateEvent]
  · rw [h]

/-- Witness for C3 on a two-tab cycle whose second step fails: two
dispatches, one aggregate event, Idle at the end. -/
theorem c3_sequential_cycle_completeness_witness :
    ([tabKw, termAi] ≠ ([] : List String)) ∧
    ((runCycle outc0 ([tabKw, termAi].length + 1)
      (startCycleState [tabKw, termAi])).2.filter isDispatchEvent).length = 2 ∧
    ((runCycle outc0 ([tabKw, termAi].length + 1)
      (startCycleState [tabKw, termAi])).2.filter isAggregateEvent).length = 1 ∧
    (runCycle outc0 ([tabKw, termAi].length + 1)
      (startCycleState [tabKw, termAi])).1.active = false :=
  ⟨by decide,
    (c3_sequential_cycle_completeness [tabKw, termAi] outc0 (by decide)).2.1,
    (c3_sequential_cycle_completeness [tabKw, termAi] outc0 (by decide)).2.2.1,
    (c3_sequential_cycle_completeness [tabKw, termAi] outc0 (by decide)).2.2.2⟩

/-- Emission count distributes over concatenation. -/
theorem countEmits_append (a b : List WEvent) :
    countEmits (a ++ b) = countEmits a + countEmits b := by
  simp [countEmits, List.filter_append]

/-- Attempt count distributes over concatenation. -/
theorem countAttempts_append (a b : List WEvent) :
    countAttempts (a ++ b) = countAttempts a + countAttempts b := by
  simp [countAttempts, List.filter_append]

/-- Per-event contribution to the emission count. -/
theorem countEmits_cons (e : WEvent) (l : List WEvent) :
    countEmits (e :: l) =
      (match e with | .emitError => 1 | .emitFinished => 1 | _ => 0) + countEmits l := by
  cases e <;> simp [countEmits, List.filter_cons, Nat.add_comm]

/-- Per-event contribution to the attempt count. -/
theorem countAttempts_cons (e : WEvent) (l : List WEvent) :
    countAttempts (e :: l) =
      (match e with | .attemptStart _ => 1 | _ => 0) + countAttempts l := by
  cases e <;> simp [countAttempts, List.filter_cons, Nat.add_comm]

/-- An uncancelled backoff wait runs to completion: one flag poll before
each of the `w` seconds of sleep. -/
theorem waitBackoff_none (w : Nat) : ∀ pc : Nat,
    waitBackoff none w pc = (backoffTrace w pc, pc + w, false) := by
  induction w with
  | zero => intro pc; simp [waitBackoff, backoffTrace]
  | succ w ihw =>
    intro pc
    unfold waitBackoff
    rw [show isCancelled none pc = false from rfl]
    simp only [Bool.false_eq_true, if_false, ihw (pc + 1), backoffTrace, Prod.mk.injEq,
      true_and, and_true]
    omega

/-- The uncancelled backoff trace contains exactly `w` seconds of sleep. -/
theorem backoffTrace_sleeps (w : Nat) : ∀ pc : Nat, countSleeps (backoffTrace w pc) = w := by
  induction w with
  | zero => intro pc; rfl
  | succ w ihw =>
    intro pc
    simp only [backoffTrace, countSleeps, List.filter_cons]
    simp only [countSleeps] at ihw
    simp [ihw (pc + 1)]

/-- A backoff wait emits nothing, for any cancellation schedule. -/
theorem waitBackoff_no_emits (cancelAt : Option Nat) (w : Nat) : ∀ pc : Nat,
    countEmits (waitBackoff cancelAt w pc).1 = 0 := by
  induction w with
  | zero => intro pc; rfl
  | succ w ihw =>
    intro pc
    unfold waitBackoff
    split
    · rfl
    · simp only [countEmits_cons, ihw (pc + 1)]

/-- A backoff wait starts no attempt, for any cancellation schedule. -/
theorem waitBackoff_no_attempts (cancelAt : Option Nat) (w : Nat) : ∀ pc : Nat,
    countAttempts (waitBackoff cancelAt w pc).1 = 0 := by
  induction w with
  | zero => intro pc; rfl
  | succ w ihw =>
    intro pc
    unfold waitBackoff
    split
    · rfl
    · simp only [countAttempts_cons, ihw (pc + 1)]

/-- A guarded error/completion emission emits at most once and starts no
attempt. -/
theorem safeEmit_counts (cancelAt : Option Nat) (pc : Nat) :
    (countEmits (safeEmit cancelAt pc .emitError) ≤ 1 ∧
      countEmits (safeEmit cancelAt pc .emitFinished) ≤ 1) ∧
    (countAttempts (safeEmit cancelAt pc .emitError) = 0 ∧
      countAttempts (safeEmit cancelAt pc .emitFinished) = 0) ∧
    (cancelAt = none →
      countEmits (safeEmit cancelAt pc .emitError) = 1 ∧
      countEmits (safeEmit cancelAt pc .emitFinished) = 1) := by
  unfold safeEmit
  by_cases hc : isCancelled cancelAt pc = true
  · simp only [if_pos hc]
    refine ⟨⟨Nat.zero_le 1, Nat.zero_le 1⟩, ⟨rfl, rfl⟩, fun hnone => ?_⟩
    subst hnone
    simp [isCancelled] at hc
  · simp only [if_neg hc]
    exact ⟨⟨Nat.le_refl 1, Nat.le_refl 1⟩, ⟨rfl, rfl⟩, fun _ => ⟨rfl, rfl⟩⟩

/-- The retry loop emits at most once, under any cancellation schedule. -/
theorem countEmits_runAttempts_le (resp : Nat → ApiResp) (cancelAt : Option Nat) (N : Nat) :
    ∀ fuel i pc, countEmits (runAttempts resp cancelAt N fuel i pc) ≤ 1 := by
  intro fuel
  induction fuel with
  | zero => intro i pc; exact Nat.zero_le 1
  | succ fuel ihf =>
    intro i pc
    unfold runAttempts
    split
    · exact Nat.zero_le 1
    · simp only [countEmits_cons, Nat.zero_add]
      cases hr : resp i with
      | rateLimited =>
        simp only
        split
        · split
          · rw [waitBackoff_no_emits cancelAt ((i + 1) * 2) (pc + 1)]
            exact Nat.zero_le 1
          · rw [countEmits_append, waitBackoff_no_emits cancelAt ((i + 1) * 2) (pc + 1),
              Nat.zero_add]
            exact ihf (i + 1) (waitBackoff cancelAt ((i + 1) * 2) (pc + 1)).2.1
        · exact (safeEmit_counts cancelAt (pc + 1)).1.1
      | httpError code => exact (safeEmit_counts cancelAt (pc + 1)).1.1
      | ok k => exact (safeEmit_counts cancelAt (pc + 1)).1.2
      | timeout =>
        simp only
        split
        · simp only [countEmits_cons, Nat.zero_add]
          exact ihf (i + 1) (pc + 1)
        · exact (safeEmit_counts cancelAt (pc + 1)).1.1
      | netError =>
        simp only
        split
        · simp only [countEmits_cons, Nat.zero_add]
          exact ihf (i + 1) (pc + 1)
        · exact (safeEmit_counts cancelAt (pc + 1)).1.1

/-- The retry loop starts at most `fuel` attempts. -/
theorem countAttempts_runAttempts_le (resp : Nat → ApiResp) (cancelAt : Option Nat)
    (N : Nat) : ∀ fuel i pc, countAttempts (runAttempts resp cancelAt N fuel i pc) ≤ fuel := by
  intro fuel
  induction fuel with
  | zero => intro i pc; exact Nat.le_refl 0
  | succ fuel ihf =>
    intro i pc
    unfold runAttempts
    split
    · exact Nat.zero_le _
    · simp only [countAttempts_cons, Nat.zero_add]
      have hsucc : ∀ m, m ≤ fuel → 1 + m ≤ fuel + 1 := by omega
      cases hr : resp i with
      | rateLimited =>
        simp only
        split
        · split
          · rw [waitBackoff_no_attempts cancelAt ((i + 1) * 2) (pc + 1)]
            omega
          · rw [countAttempts_append, waitBackoff_no_attempts cancelAt ((i + 1) * 2) (pc + 1),
              Nat.zero_add]
            exact hsucc _ (ihf (i + 1) (waitBackoff cancelAt ((i + 1) * 2) (pc + 1)).2.1)
        · rw [(safeEmit_counts cancelAt (pc + 1)).2.1.1]
          omega
      | httpError code =>
        rw [(safeEmit_counts cancelAt (pc + 1)).2.1.1]
        omega
      | ok k =>
        rw [(safeEmit_counts cancelAt (pc + 1)).2.1.2]
        omega
      | timeout =>
        simp only
        split
        · simp only [countAttempts_cons, Nat.zero_add]
          exact hsucc _ (ihf (i + 1) (pc + 1))
        · rw [(safeEmit_counts cancelAt (pc + 1)).2.1.1]
          omega
      | netError =>
        simp only
        split
        · simp only [countAttempts_cons, Nat.zero_add]
          exact hsucc _ (ihf (i + 1) (pc + 1))
        · rw [(safeEmit_counts cancelAt (pc + 1)).2.1.1]
          omega

/-- With no cancellation and enough fuel (`N - i` iterations remain), the
retry loop emits exactly once. -/
theorem countEmits_runAttempts_none (resp : Nat → ApiResp) (N : Nat) :
    ∀ fuel i pc, i < N → N - i ≤ fuel →
    countEmits (runAttempts resp none N fuel i pc) = 1 := by
  intro fuel
  induction fuel with
  | zero => intro i pc hi hf; omega
  | succ fuel ihf =>
    intro i pc hi hf
    unfold runAttempts
    rw [show isCancelled none pc = false from rfl]
    simp only [Bool.false_eq_true, if_false, countEmits_cons, Nat.zero_add]
    cases hr : resp i with
    | rateLimited =>
      simp only
      split
      · rename_i hlt
        rw [waitBackoff_none ((i + 1) * 2) (pc + 1)]
        simp only [Bool.false_eq_true, if_false]
        rw [countEmits_append]
        have hb : countEmits (backoffTrace ((i + 1) * 2) (pc + 1)) = 0 := by
          have := waitBackoff_no_emits none ((i + 1) * 2) (pc + 1)
          rw [waitBackoff_none ((i + 1) * 2) (pc + 1)] at this
          exact this
        rw [hb, Nat.zero_add]
        exact ihf (i + 1) (pc + 1 + (i + 1) * 2) (by omega) (by omega)
      · exact ((safeEmit_counts none (pc + 1)).2.2 rfl).1
    | httpError code => exact ((safeEmit_counts none (pc + 1)).2.2 rfl).1
    | ok k => exact ((safeEmit_counts none (pc + 1)).2.2 rfl).2
    | timeout =>
      simp only
      split
      · rename_i hlt
        simp only [countEmits_cons, Nat.zero_add]
        exact ihf (i + 1) (pc + 1) (by omega) (by omega)
      · exact ((safeEmit_counts none (pc + 1)).2.2 rfl).1
    | netError =>
      simp only
      split
      · rename_i hlt
        simp only [countEmits_cons, Nat.zero_add]
        exact ihf (i + 1) (pc + 1) (by omega) (by omega)
      · exact ((safeEmit_counts none (pc + 1)).2.2 rfl).1

/-- C6. Retry policy of `ApiWorker.run` with `max_retries = N ≥ 1`
(every worker in the program is constructed with the default `N = 3`):
an uncancelled backoff wait of `w` seconds polls the cancellation flag
before every one of its `w` sleeps; a 429 on attempt `i` with `i + 1 < N`
waits the linearly increasing, attempt-indexed `(i + 1) * 2` seconds and
then retries attempt `i + 1`; a 429 on the final attempt emits the error
event; any other non-2xx status emits the error event immediately with no
further attempt; every run makes at most `N` attempts and emits at most one
of {completion, error} — exactly one when never cancelled, none when
cancelled from the start. -/
theorem c6_worker_retry_policy (resp : Nat → ApiResp) (N : Nat) (hN : 1 ≤ N) :
    (∀ w pc, waitBackoff none w pc = (backoffTrace w pc, pc + w, false) ∧
      countSleeps (backoffTrace w pc) = w) ∧
    (∀ fuel i pc, resp i = .rateLimited → i + 1 < N →
      runAttempts resp none N (fuel + 1) i pc =
        .cancelPoll pc :: .attemptStart i :: (backoffTrace ((i + 1) * 2) (pc + 1) ++
          runAttempts resp none N fuel (i + 1) (pc + 1 + (i + 1) * 2))) ∧
    (∀ fuel i pc, resp i = .rateLimited → i + 1 = N →
      runAttempts resp none N (fuel + 1) i pc =
        [.cancelPoll pc, .attemptStart i, .cancelPoll (pc + 1), .emitError]) ∧
    (∀ fuel i pc code, resp i = .httpError code →
      runAttempts resp none N (fuel + 1) i pc =
        [.cancelPoll pc, .attemptStart i, .cancelPoll (pc + 1), .emitError]) ∧
    (∀ cancelAt, countAttempts (apiWorkerRun resp cancelAt N) ≤ N ∧
      countEmits (apiWorkerRun resp cancelAt N) ≤ 1) ∧
    countEmits (apiWorkerRun resp none N) = 1 ∧
    countEmits (apiWorkerRun resp (some 0) N) = 0 := by
  refine ⟨fun w pc => ⟨waitBackoff_none w pc, backoffTrace_sleeps w pc⟩,
    fun fuel i pc hr hlt => ?_, fun fuel i pc hr hfin => ?_,
    fun fuel i pc code hr => ?_, fun cancelAt => ⟨?_, ?_⟩, ?_, ?_⟩
  · conv_lhs => unfold runAttempts
    rw [show isCancelled none pc = false from rfl]
    simp only [Bool.false_eq_true, if_false, hr]
    rw [if_pos (show i < N - 1 by omega)]
    rw [waitBackoff_none ((i + 1) * 2) (pc + 1)]
    simp only [Bool.false_eq_true, if_false]
  · unfold runAttempts
    rw [show isCancelled none pc = false from rfl]
    simp only [Bool.false_eq_true, if_false, hr]
    rw [if_neg (show ¬ i < N - 1 by omega)]
    rfl
  · unfold runAttempts
    rw [show isCancelled none pc = false from rfl]
    simp only [Bool.false_eq_true, if_false, hr]
    rfl
  · unfold apiWorkerRun
    split
    · simp [countAttempts, List.filter_cons]
    · simp only [countAttempts_cons, Nat.zero_add]
      have := countAttempts_runAttempts_le resp cancelAt N N 0 1
      omega
  · unfold apiWorkerRun
    split
    · simp [countEmits, List.filter_cons]
    · simp only [countEmits_cons, Nat.zero_add]
      exact countEmits_runAttempts_le resp cancelAt N N 0 1
  · unfold apiWorkerRun
    rw [show isCancelled none 0 = false from rfl]
    simp only [Bool.false_eq_true, if_false, countEmits_cons, Nat.zero_add]
    exact countEmits_runAttempts_none resp N N 0 1 (by omega) (by omega)
  · unfold apiWorkerRun
    rw [show isCancelled (some 0) 0 = true from rfl]
    simp only [if_true]
    rfl

/-- Witness for C6 at `N = 3` with a concrete response schedule: the run
makes at most 3 attempts and emits exactly one event when uncancelled, and
none when cancelled from the start. -/
theorem c6_worker_retry_policy_witness :
    (1 ≤ 3) ∧
    countAttempts (apiWorkerRun resp0 none 3) ≤ 3 ∧
    countEmits (apiWorkerRun resp0 none 3) = 1 ∧
    countEmits (apiWorkerRun resp0 (some 0) 3) = 0 :=
  ⟨by omega,
    ((c6_worker_retry_policy resp0 3 (by omega)).2.2.2.2.1 none).1,
    (c6_worker_retry_policy resp0 3 (by omega)).2.2.2.2.2.1,
    (c6_worker_retry_policy resp0 3 (by omega)).2.2.2.2.2.2⟩

